import Mathlib

/-! dns-proxy-server: query dispatch and service lifecycle (dns.go).

A shallow embedding of `dns.go`: the per-query dispatcher `handleQuestion`,
the listener bootstrap `serve`, and the startup/shutdown protocol of `main`.
Effects (log lines, solver calls, written responses, process-level calls) are
recorded as explicit traces; Go panics are an explicit completion value.
-/

namespace DnsProxy

/-! ## DNS messages (types of github.com/miekg/dns used by dns.go) -/

/-- The type dns.Question: a name, a record-type code and a class code. -/
structure Question where
  Name : String
  Qtype : Nat
  Qclass : Nat
deriving DecidableEq

/-- The interface dns.RR, kept as owner name, record type and record data. -/
structure RR where
  Name : String
  Rrtype : Nat
  Rdata : String
deriving DecidableEq

/-- The type dns.Msg: the header fields of dns.MsgHdr, the Compress flag and the
four sections. -/
structure Msg where
  Id : Nat
  Response : Bool
  Opcode : Nat
  Authoritative : Bool
  Truncated : Bool
  RecursionDesired : Bool
  RecursionAvailable : Bool
  Zero : Bool
  AuthenticatedData : Bool
  CheckingDisabled : Bool
  Rcode : Nat
  Compress : Bool
  Question : List Question
  Answer : List RR
  Ns : List RR
  Extra : List RR
deriving DecidableEq

/-- The constant dns.OpcodeQuery. -/
def OpcodeQuery : Nat := 0

/-- The constant dns.RcodeSuccess. -/
def RcodeSuccess : Nat := 0

/-- The library method `(dns *Msg) SetReply(request *Msg)` of github.com/miekg/dns
(defaults.go), called at dns.go:77. It copies the request id, marks the message
as a response, copies the opcode (and, for a standard query, the rd and cd
bits), resets the rcode and replaces the question section by the first question
of the request when there is one. -/
def Msg.SetReply (dns request : Msg) : Msg :=
  let dns := { dns with Id := request.Id, Response := true, Opcode := request.Opcode }
  let dns :=
    if dns.Opcode = OpcodeQuery then
      { dns with RecursionDesired := request.RecursionDesired,
                 CheckingDisabled := request.CheckingDisabled }
    else dns
  let dns := { dns with Rcode := RcodeSuccess }
  match request.Question with
  | [] => dns
  | q :: _ => { dns with Question := [q] }

/-! ## Configuration read by dns.go (package conf) -/

/-- The values dns.go reads through package conf. -/
structure Conf where
  Tsig : String
  CpuProfile : String
  DnsServerPort : Nat
  WebServerPort : Nat
  SetupResolvConf : Bool
  Compress : Bool
deriving DecidableEq

/-! ## Solvers and the effects of one query -/

/-- The three proxy.DnsSolver implementations built at dns.go:56-58. -/
inductive SolverId where
  | docker
  | localDns
  | remote
deriving DecidableEq

/-- The slice literal of dns.go:56-58: docker solver, local solver, remote solver. -/
def solvers : List SolverId := [SolverId.docker, SolverId.localDns, SolverId.remote]

/-- The logging context made by logging.NewContext(). -/
structure Context where
  id : Nat
deriving DecidableEq

/-- What one call `solver.Solve(ctx, question)` does: it returns the Go pair
`(resp, err)`, either of which may be nil, or it panics. -/
inductive SolveResult where
  | returned (resp : Option Msg) (err : Option String)
  | panicked (v : String)
deriving DecidableEq

/-- Log levels used in dns.go. -/
inductive Level where
  | debug
  | info
  | warning
  | error
deriving DecidableEq

/-- Observable effects of handling one query. -/
inductive Event where
  | log (level : Level) (status : String)
  | Solve (solver : SolverId) (ctx : Context) (question : Question)
  | WriteMsg (resp : Msg)
deriving DecidableEq

/-- How a Go function body ends: a normal return, or a panic unwinding the stack. -/
inductive Completion where
  | returned
  | panicked (v : String)
deriving DecidableEq

/-- The effects of (part of) a function call together with how it ended. -/
structure Run where
  events : List Event
  completion : Completion
deriving DecidableEq

/-- Effects performed before the rest of a run. -/
def Run.after (evs : List Event) (r : Run) : Run :=
  ⟨evs ++ r.events, r.completion⟩

/-- The responses handed to `respWriter.WriteMsg`, in order. -/
def writes : List Event → List Msg
  | [] => []
  | Event.WriteMsg m :: es => m :: writes es
  | _ :: es => writes es

/-- The solver invocations, in order, with the question each one was given. -/
def invocations : List Event → List (SolverId × Question)
  | [] => []
  | Event.Solve s _ q :: es => (s, q) :: invocations es
  | _ :: es => invocations es

/-- Lines 77-78 of dns.go: `resp.SetReply(reqMsg)` then
`resp.Compress = conf.Compress()`. -/
def finalize (conf : Conf) (reqMsg resp : Msg) : Msg :=
  { resp.SetReply reqMsg with Compress := conf.Compress }

/-- The loop of dns.go:60-85 over the remaining solvers. A solver that returns
`err == nil` ends the loop (`break`) after its response is written; reading
`resp.Answer` of a nil response is a nil-pointer panic; a solver that returns an
error is logged and the next one is tried. -/
def solveLoop (conf : Conf) (solve : SolverId → Context → Question → SolveResult)
    (ctx : Context) (reqMsg : Msg) (firstQuestion : Question) : List SolverId → Run
  | [] => ⟨[], Completion.returned⟩
  | solver :: rest =>
    Run.after [Event.log Level.debug "status=begin", Event.Solve solver ctx firstQuestion]
      (match solve solver ctx firstQuestion with
       | SolveResult.panicked v => ⟨[], Completion.panicked v⟩
       | SolveResult.returned resp none =>
         (match resp with
          | none => ⟨[], Completion.panicked "invalid memory address or nil pointer dereference"⟩
          | some resp =>
            ⟨[Event.log Level.debug "status=answer-found",
              Event.log Level.debug "status=resolved",
              Event.WriteMsg (finalize conf reqMsg resp)], Completion.returned⟩)
       | SolveResult.returned _ (some _) =>
         Run.after [Event.log Level.debug "status=not-resolved"]
           (solveLoop conf solve ctx reqMsg firstQuestion rest))

/-- The body of handleQuestion (dns.go:43-85), before the deferred function runs. -/
def handleQuestionBody (conf : Conf) (solve : SolverId → Context → Question → SolveResult)
    (ctx : Context) (reqMsg : Msg) : Run :=
  match reqMsg.Question with
  | [] => ⟨[Event.log Level.error "status=question-is-nil"], Completion.returned⟩
  | firstQuestion :: _ =>
    Run.after [Event.log Level.debug "status=begin"]
      (solveLoop conf solve ctx reqMsg firstQuestion solvers)

/-- The builtin recover() inside a deferred function: the panic value when the
function is panicking, nil otherwise. -/
def recover : Completion → Option String
  | Completion.returned => none
  | Completion.panicked v => some v

/-- The function handleQuestion (dns.go:31-87): the body followed by the deferred
function of lines 36-41, which recovers a panic and logs it. After the deferred
function has called recover() the call returns normally to its caller. -/
def handleQuestion (conf : Conf) (solve : SolverId → Context → Question → SolveResult)
    (ctx : Context) (reqMsg : Msg) : Run :=
  let body := handleQuestionBody conf solve ctx reqMsg
  let err := recover body.completion
  if err ≠ none then
    ⟨body.events ++ [Event.log Level.error "status=error"], Completion.returned⟩
  else
    ⟨body.events, Completion.returned⟩

/-! ## Startup: TSIG name and secret (dns.go:115-119) -/

/-- The position of the first occurrence of a one-byte separator (strings.Index). -/
def indexByte (sep : Char) : List Char → Option Nat
  | [] => none
  | c :: cs => if c = sep then some 0 else (indexByte sep cs).map (fun m => m + 1)

/-- The loop of strings.genSplit for a one-byte separator: at most `k` more cuts,
the remainder of the string being the last piece. -/
def genSplit (sep : Char) : Nat → List Char → List (List Char)
  | 0, s => [s]
  | k + 1, s =>
    match indexByte sep s with
    | none => [s]
    | some m => s.take m :: genSplit sep k (s.drop (m + 1))

/-- The standard-library function strings.SplitN for a one-byte separator and
`n ≥ 0`: no piece for `n = 0`, otherwise at most `n` pieces (capped at
`len(s)+1`), the last one holding the unsplit remainder. -/
def SplitN (s : String) (sep : Char) (n : Nat) : List String :=
  if n = 0 then []
  else
    let n := if n > s.utf8ByteSize + 1 then s.utf8ByteSize + 1 else n
    (genSplit sep (n - 1) s.data).map String.mk

/-- The library function dns.IsFqdn: the name ends in a dot. -/
def IsFqdn (s : String) : Bool :=
  match s.data.getLast? with
  | some c => c == '.'
  | none => false

/-- The library function dns.Fqdn: the name itself when it is fully qualified,
the name followed by a dot otherwise. -/
def Fqdn (s : String) : String :=
  if IsFqdn s then s else s ++ "."

/-- Lines 115-119 of dns.go: name and secret stay empty for an empty Tsig;
otherwise the Tsig is split at the first colon and both elements of the result
are read, which panics when the result has fewer than two elements. -/
def tsigNameSecret (tsig : String) : Except String (String × String) :=
  if tsig ≠ "" then
    let a := SplitN tsig ':' 2
    match a[0]?, a[1]? with
    | some a0, some a1 => Except.ok (Fqdn a0, a1)
    | _, _ => Except.error "runtime error: index out of range"
  else Except.ok ("", "")

/-! ## Listeners and the process -/

/-- The fields of dns.Server set by serve. A nil TsigSecret map is `none`. -/
structure Server where
  Addr : String
  Net : String
  TsigSecret : Option (List (String × String))
deriving DecidableEq

/-- The constants of package utils/exitcodes used by dns.go. Their values are
declared outside dns.go and are taken as given. -/
structure ExitCodes where
  FAIL_START_DNS_SERVER : Nat
  FAIL_START_WEB_SERVER : Nat
  FAIL_SET_DNS_AS_DEFAULT : Nat
deriving DecidableEq

/-- The three constants have pairwise different values. -/
def ExitCodes.Distinct (codes : ExitCodes) : Prop :=
  codes.FAIL_START_DNS_SERVER ≠ codes.FAIL_START_WEB_SERVER ∧
  codes.FAIL_START_DNS_SERVER ≠ codes.FAIL_SET_DNS_AS_DEFAULT ∧
  codes.FAIL_START_WEB_SERVER ≠ codes.FAIL_SET_DNS_AS_DEFAULT

instance (codes : ExitCodes) : Decidable codes.Distinct := by
  unfold ExitCodes.Distinct
  exact inferInstance

/-- The goroutines started by main (dns.go:133-157), in the order of the go
statements. -/
inductive Goroutine where
  | HandleDockerEvents
  | serveTcp
  | serveUdp
  | webServer
  | setupRequests
deriving DecidableEq

/-- Calls made by main and by the goroutines it starts. `callExit code` is the
call `exitcodes.Exit(code)`; `waitSignal` is the receive `<-utils.Sig` while it
blocks and `receiveSignal s` its completion with the signal `s`; `osExit status`
is the end of the process. -/
inductive Action where
  | log (level : Level) (status : String)
  | printf (text : String)
  | installService
  | createProfile (path : String)
  | fatal (err : String)
  | startCPUProfile
  | stopCPUProfile
  | handleFunc (pattern : String)
  | loadConfiguration
  | go (g : Goroutine)
  | handleDockerEvents
  | listenAndServe (server : Server)
  | httpListenAndServe (addr : String)
  | mapRequests
  | setCurrentDNSServerToMachine
  | waitSignal
  | receiveSignal (s : Nat)
  | restoreResolvconfToDefault
  | callExit (code : Nat)
  | osExit (status : Nat)
deriving DecidableEq

/-- What the operating system and the libraries answer during startup: the
error of os.Create for the profile file, of each DNS listener
(`server.ListenAndServe()`, `none` while the listener keeps serving), of the web
listener, and of resolvconf.SetCurrentDNSServerToMachine. -/
structure Env where
  createProfile : Option String
  ListenAndServe : Server → Option String
  httpListenAndServe : String → Option String
  SetCurrentDNSServerToMachine : Option String

/-- The function serve (dns.go:89-106). -/
def serve (conf : Conf) (codes : ExitCodes) (env : Env) (net name secret : String) :
    List Action :=
  let port := ":" ++ toString conf.DnsServerPort
  Action.log Level.debug "status=begin" ::
  (if name = "" then
    let server : Server := ⟨port, net, none⟩
    Action.listenAndServe server ::
    (match env.ListenAndServe server with
     | some err =>
       [Action.printf ("Failed to setup the " ++ net ++ " server: " ++ err ++ "\n"),
        Action.callExit codes.FAIL_START_DNS_SERVER]
     | none => [])
  else
    let server : Server := ⟨port, net, some [(name, secret)]⟩
    Action.listenAndServe server ::
    (match env.ListenAndServe server with
     | some err =>
       [Action.printf ("Failed to setup the " ++ net ++ " server: " ++ err ++ "\n"),
        Action.callExit codes.FAIL_START_DNS_SERVER]
     | none => []))

/-- The goroutine of dns.go:136-145 that starts the web server. -/
def webServer (conf : Conf) (codes : ExitCodes) (env : Env) : List Action :=
  let webPort := conf.WebServerPort
  Action.log Level.info "status=web-server-starting" ::
  Action.httpListenAndServe (":" ++ toString webPort) ::
  (match env.httpListenAndServe (":" ++ toString webPort) with
   | some _ =>
     [Action.log Level.error "status=failed-start-web-server",
      Action.callExit codes.FAIL_START_WEB_SERVER]
   | none => [Action.log Level.info "status=web-server-started"])

/-- The goroutine of dns.go:146-157 that maps the web requests and, when
enabled, makes this server the default resolver of the machine. -/
def setupRequests (conf : Conf) (codes : ExitCodes) (env : Env) : List Action :=
  Action.log Level.info "status=setup-requests" ::
  Action.mapRequests ::
  (if conf.SetupResolvConf then
    Action.log Level.info "status=setResolvconf" ::
    Action.setCurrentDNSServerToMachine ::
    (match env.SetCurrentDNSServerToMachine with
     | some _ =>
       [Action.log Level.error "status=setResolvconf",
        Action.callExit codes.FAIL_SET_DNS_AS_DEFAULT]
     | none => [])
  else [])

/-- The body of each goroutine started by main, for the name and secret computed
at dns.go:115-119. -/
def goroutineBody (conf : Conf) (codes : ExitCodes) (env : Env) (name secret : String) :
    Goroutine → List Action
  | Goroutine.HandleDockerEvents => [Action.handleDockerEvents]
  | Goroutine.serveTcp => serve conf codes env "tcp" name secret
  | Goroutine.serveUdp => serve conf codes env "udp" name secret
  | Goroutine.webServer => webServer conf codes env
  | Goroutine.setupRequests => setupRequests conf codes env

/-- The status passed to the first call of exitcodes.Exit in a list of calls. -/
def exitCode? : List Action → Option Nat
  | [] => none
  | Action.callExit code :: _ => some code
  | _ :: as => exitCode? as

/-- The servers on which ListenAndServe was called. -/
def servers : List Action → List Server
  | [] => []
  | Action.listenAndServe server :: as => server :: servers as
  | _ :: as => servers as

/-- The threads of the process: main and the goroutines it starts. -/
inductive Thread where
  | main
  | go (g : Goroutine)
deriving DecidableEq

/-- One scheduling event: a thread performs its next call, or a signal is
delivered on utils.Sig. Any list of such events is a possible order of execution;
the threads of dns.go are not synchronised with each other. -/
inductive Tick where
  | run (t : Thread)
  | signal (s : Nat)
deriving DecidableEq

/-- How the process stands at the end of a run: still running, ended by a panic
of main, ended by logger.Fatal, or ended by the thread `t` with an exit status. -/
inductive Ending where
  | running
  | panicked (v : String)
  | fatal
  | exited (t : Thread) (status : Nat)
deriving DecidableEq

/-- The calls made during a run of the process, each with the thread that made
it, in the order they happened, and how the run ended. -/
structure ProcessRun where
  calls : List (Thread × Action)
  ending : Ending
deriving DecidableEq

/-- The calls of a run without the threads that made them. -/
def ProcessRun.actions (r : ProcessRun) : List Action :=
  r.calls.map Prod.snd

/-- The go statements of dns.go:133-157 followed by lines 159-160. -/
def launchAll : List Action :=
  [Action.go Goroutine.HandleDockerEvents, Action.go Goroutine.serveTcp,
   Action.go Goroutine.serveUdp, Action.go Goroutine.webServer,
   Action.go Goroutine.setupRequests,
   Action.log Level.info "status=listing-signals", Action.printf "server started\n"]

/-- Lines 162-165 of dns.go, after the signal has been received: main logs,
restores the resolver configuration, logs, and returns; a deferred
StopCPUProfile runs when profiling was started; the process then ends with
status 0. -/
def mainShutdown (profiling : Bool) : List Action :=
  [Action.log Level.info "status=exiting...",
   Action.restoreResolvconfToDefault, Action.log Level.warning "status=exiting"] ++
  (if profiling then [Action.stopCPUProfile] else []) ++ [Action.osExit 0]

/-- What main does from the go statements on (dns.go:133-165). -/
def mainProgram (profiling : Bool) : List Action :=
  launchAll ++ Action.waitSignal :: mainShutdown profiling

/-- Modelled from the spec: the function exitcodes.Exit, which dns.go calls on
every fatal startup failure, is not part of dns.go. Following sections 4.3 and
4.4 of the specification, a fatal exit restores the host DNS configuration as
its last action and then terminates the process with the given status. -/
def exitcodes.Exit (code : Nat) : List Action :=
  [Action.restoreResolvconfToDefault, Action.osExit code]

/-- The steps of a goroutine: its calls, each call of exitcodes.Exit being
followed by what that function does. -/
def withExit : List Action → List Action
  | [] => []
  | Action.callExit code :: as => Action.callExit code :: (exitcodes.Exit code ++ withExit as)
  | a :: as => a :: withExit as

/-- The state of the process: what each thread still has to do, which threads
have been started, the calls made so far, and the exiting thread with its status
once the process has ended. -/
structure Proc where
  remaining : Thread → List Action
  started : Thread → Bool
  trace : List (Thread × Action)
  exit : Option (Thread × Nat)

/-- A function on threads changed at one thread. -/
def setAt {α : Type} (f : Thread → α) (t : Thread) (v : α) : Thread → α :=
  fun u => if u = t then v else f u

/-- The end of the process when a thread performs os.Exit or main returns. -/
def exitOf (t : Thread) : Action → Option (Thread × Nat)
  | Action.osExit status => some (t, status)
  | _ => none

/-- A go statement starts its goroutine. -/
def startedBy (started : Thread → Bool) : Action → Thread → Bool
  | Action.go g => setAt started (Thread.go g) true
  | _ => started

/-- The thread `t` makes the call `a` and is left with `rest`. -/
def perform (st : Proc) (t : Thread) (a : Action) (rest : List Action) : Proc :=
  ⟨setAt st.remaining t rest, startedBy st.started a, st.trace ++ [(t, a)], exitOf t a⟩

/-- One scheduling event. Nothing happens once the process has ended. A signal
is received when main is blocked on utils.Sig. A started thread that is not
blocked makes its next call. -/
def step (st : Proc) (tick : Tick) : Proc :=
  match st.exit with
  | some _ => st
  | none =>
    match tick with
    | Tick.signal s =>
      (match st.remaining Thread.main with
       | Action.waitSignal :: rest => perform st Thread.main (Action.receiveSignal s) rest
       | _ => st)
    | Tick.run t =>
      if st.started t then
        (match st.remaining t with
         | [] => st
         | Action.waitSignal :: _ => st
         | a :: rest => perform st t a rest)
      else st

/-- The process after a list of scheduling events. -/
def runTicks (st : Proc) (ticks : List Tick) : Proc :=
  ticks.foldl step st

/-- The process when main reaches the go statements, having made the calls
`done`: only main is started, each goroutine has its whole body ahead. -/
def startProcess (body : Goroutine → List Action) (profiling : Bool) (done : List Action) :
    Proc :=
  ⟨fun t =>
      match t with
      | Thread.main => mainProgram profiling
      | Thread.go g => withExit (body g),
    fun t => decide (t = Thread.main),
    done.map (fun a => (Thread.main, a)),
    none⟩

/-- The run observed in a state of the process. -/
def Proc.run (st : Proc) : ProcessRun :=
  ⟨st.trace,
    match st.exit with
    | none => Ending.running
    | some (t, status) => Ending.exited t status⟩

/-- The function main (dns.go:108-165) as a run of the whole process: the
sequential startup, then the threads interleaved in the order given by the
scheduling events. -/
def main (conf : Conf) (codes : ExitCodes) (env : Env) (schedule : List Tick) : ProcessRun :=
  match tsigNameSecret conf.Tsig with
  | Except.error v => ⟨[(Thread.main, Action.installService)], Ending.panicked v⟩
  | Except.ok (name, secret) =>
    if conf.CpuProfile ≠ "" then
      match env.createProfile with
      | some err =>
        ⟨[(Thread.main, Action.installService),
          (Thread.main, Action.createProfile conf.CpuProfile),
          (Thread.main, Action.fatal err)], Ending.fatal⟩
      | none =>
        (runTicks
          (startProcess (goroutineBody conf codes env name secret) true
            [Action.installService, Action.createProfile conf.CpuProfile,
             Action.startCPUProfile, Action.handleFunc ".", Action.loadConfiguration])
          schedule).run
    else
      (runTicks
        (startProcess (goroutineBody conf codes env name secret) false
          [Action.installService, Action.handleFunc ".", Action.loadConfiguration])
        schedule).run

/-- The number of invocations of resolvconf.RestoreResolvconfToDefault. -/
def restoreCount (as : List Action) : Nat :=
  as.count Action.restoreResolvconfToDefault

/-- The number of invocations of resolvconf.RestoreResolvconfToDefault made by
the thread `t`. -/
def restoresBy (t : Thread) (calls : List (Thread × Action)) : Nat :=
  calls.count (t, Action.restoreResolvconfToDefault)

/-- The action ends the process. -/
def Action.isOsExit : Action → Bool
  | Action.osExit _ => true
  | _ => false

/-- The action is the restore of the resolver configuration. -/
def Action.isRestore : Action → Bool
  | Action.restoreResolvconfToDefault => true
  | _ => false

/-- All threads of the process. -/
def allThreads : List Thread :=
  [Thread.main, Thread.go Goroutine.HandleDockerEvents, Thread.go Goroutine.serveTcp,
   Thread.go Goroutine.serveUdp, Thread.go Goroutine.webServer,
   Thread.go Goroutine.setupRequests]

/-! ## Auxiliary definitions for the statements -/

/-- The solver returned a non-nil error for this question (dns.go:66 is false). -/
def ReturnsError (solve : SolverId → Context → Question → SolveResult) (ctx : Context)
    (q : Question) (s : SolverId) : Prop :=
  ∃ resp e, solve s ctx q = SolveResult.returned resp (some e)

/-- The events of a run of the loop over solvers that all return an error. -/
def failedAttempts (ctx : Context) (q : Question) : List SolverId → List Event
  | [] => []
  | s :: rest =>
    [Event.log Level.debug "status=begin", Event.Solve s ctx q,
     Event.log Level.debug "status=not-resolved"] ++ failedAttempts ctx q rest

/-! ## Concrete inputs used in the examples -/

/-- The question of the end-to-end example: an A query for service.local. -/
def exQuestion : Question := ⟨"service.local.", 1, 1⟩

/-- A request with id 42 and two questions. -/
def exRequest : Msg :=
  ⟨42, false, 0, false, false, true, false, false, false, false, 0, false,
   [exQuestion, ⟨"other.local.", 28, 1⟩], [], [], []⟩

/-- A request with id 42 and no question. -/
def exEmptyRequest : Msg :=
  ⟨42, false, 0, false, false, true, false, false, false, false, 0, false, [], [], [], []⟩

/-- A solver response with its own id 7, compression on, and one answer record. -/
def exAnswer : Msg :=
  ⟨7, true, 0, true, false, false, true, false, false, false, 0, true,
   [exQuestion], [⟨"service.local.", 1, "10.0.0.5"⟩], [], []⟩

/-- A solver response with no answer record. -/
def exNoAnswer : Msg :=
  ⟨9, true, 0, true, false, false, true, false, false, false, 0, true, [exQuestion], [], [], []⟩

/-- A configuration with TSIG set, compression off and resolver override on. -/
def exConf : Conf := ⟨"examplekey:examplesecret", "", 53, 5380, true, false⟩

/-- A logging context. -/
def exCtx : Context := ⟨0⟩

/-- Docker and local solvers fail, the remote solver answers. -/
def solveRemoteOnly : SolverId → Context → Question → SolveResult
  | SolverId.remote, _, _ => SolveResult.returned (some exAnswer) none
  | _, _, _ => SolveResult.returned none (some "hostname not found")

/-- The docker solver returns a nil response with a nil error; the local solver
would answer. -/
def solveNilDocker : SolverId → Context → Question → SolveResult
  | SolverId.docker, _, _ => SolveResult.returned none none
  | SolverId.localDns, _, _ => SolveResult.returned (some exAnswer) none
  | SolverId.remote, _, _ => SolveResult.returned none (some "no upstream")

/-- Every solver returns an error. -/
def solveAllFail : SolverId → Context → Question → SolveResult :=
  fun _ _ _ => SolveResult.returned none (some "hostname not found")

/-- The docker solver answers. -/
def solveDocker : SolverId → Context → Question → SolveResult :=
  fun _ _ _ => SolveResult.returned (some exAnswer) none

/-- The docker solver fails and the local solver panics. -/
def solveLocalPanics : SolverId → Context → Question → SolveResult
  | SolverId.docker, _, _ => SolveResult.returned none (some "hostname not found")
  | _, _, _ => SolveResult.panicked "store is closed"

/-- The docker solver returns a response without answers, the later solvers
would return one answer. -/
def solveEmptyDocker : SolverId → Context → Question → SolveResult
  | SolverId.docker, _, _ => SolveResult.returned (some exNoAnswer) none
  | _, _, _ => SolveResult.returned (some exAnswer) none

/-- Exit statuses used in the examples. -/
def exCodes : ExitCodes := ⟨3, 1, 2⟩

/-- Every DNS listener fails to bind; everything else succeeds. -/
def exEnvBindFails : Env :=
  ⟨none, fun _ => some "listen: address already in use", fun _ => none, none⟩

/-- Every listener binds and the resolver override succeeds. -/
def exEnvServing : Env := ⟨none, fun _ => none, fun _ => none, none⟩

/-- A configuration whose Tsig has no colon. -/
def exConfNoColon : Conf := ⟨"examplekey", "", 53, 5380, true, false⟩

/-- A configuration without TSIG and without resolver override. -/
def exConfPlain : Conf := ⟨"", "", 53, 5380, false, false⟩

/-- The action is a plain call: not a restore, a call of exitcodes.Exit, the end
of the process, or the receive on utils.Sig. -/
def Action.quiet : Action → Bool
  | Action.restoreResolvconfToDefault => false
  | Action.callExit _ => false
  | Action.osExit _ => false
  | Action.waitSignal => false
  | Action.receiveSignal _ => false
  | _ => true

/-- The calls of a goroutine body are plain, except that the last call may be a
call of exitcodes.Exit. -/
def wellFormedBody : List Action → Bool
  | [] => true
  | [Action.callExit _] => true
  | a :: as => a.quiet && wellFormedBody as

/-- What is recorded when the thread `t` gets past the step `a` of its program:
the call itself, or for main blocked on utils.Sig the receipt of a signal. -/
def Emits (t : Thread) (a b : Action) : Prop :=
  (b = a ∧ a ≠ Action.waitSignal) ∨
  (t = Thread.main ∧ a = Action.waitSignal ∧ ∃ s, b = Action.receiveSignal s)

/-- In a list of steps every step of the kind `target` comes after a step of the
kind `trigger`. -/
def guardedBy (trigger target : Action → Bool) : List Action → Bool
  | [] => true
  | a :: as => trigger a || (!target a && guardedBy trigger target as)

/-- The thread `t` has made a call of the kind `trigger`. -/
def happened (trigger : Action → Bool) (t : Thread) (calls : List (Thread × Action)) : Bool :=
  calls.any (fun x => decide (x.1 = t) && trigger x.2)

/-- What leads a thread to end the process with the given status: a call of
exitcodes.Exit with that status, or for status 0 the receipt of a signal. -/
def exitTrigger (status : Nat) : Action → Bool
  | Action.callExit code => code == status
  | Action.waitSignal => status == 0
  | Action.receiveSignal _ => status == 0
  | _ => false

/-- The action ends the process with the given status. -/
def isExitWith (status : Nat) : Action → Bool
  | Action.osExit c => c == status
  | _ => false

/-- The calls end with the thread `t` ending the process with the given status;
nothing before ends the process, and before that `t` has invoked the restore
exactly once and has made the call that leads to this exit. -/
def ExitedAfterRestore (t : Thread) (status : Nat) (calls : List (Thread × Action)) : Prop :=
  ∃ pre, calls = pre ++ [(t, Action.osExit status)] ∧
    (∀ x ∈ pre, x.2.isOsExit = false) ∧
    restoresBy t pre = 1 ∧
    happened (exitTrigger status) t pre = true

/-- The invariant of the process: no thread makes more than one restore in all;
a thread reaches the end of the process only after its restore and after the
call that leads to this exit; nothing is recorded after the end of the process. -/
def Sound (st : Proc) : Prop :=
  (∀ t, restoresBy t st.trace + restoreCount (st.remaining t) ≤ 1) ∧
  (∀ t, happened Action.isRestore t st.trace = true
    ∨ guardedBy Action.isRestore Action.isOsExit (st.remaining t) = true) ∧
  (∀ status t, happened (exitTrigger status) t st.trace = true
    ∨ guardedBy (exitTrigger status) (isExitWith status) (st.remaining t) = true) ∧
  (st.exit = none → ∀ x ∈ st.trace, x.2.isOsExit = false) ∧
  (∀ t status, st.exit = some (t, status) → ExitedAfterRestore t status st.trace)

/-- The restore discipline of a run. When the thread `t` has ended the process
with some status, its exit is the last call, no call before it ends the process,
and before it `t` has invoked the restore exactly once; when `t` is main the
status is 0 and main has received a signal; when `t` is a goroutine it has called
exitcodes.Exit with that status. No thread invokes the restore more than once,
and the invocations of the run are those of its threads taken together. -/
def RestoreDiscipline (r : ProcessRun) : Prop :=
  (∀ t status, r.ending = Ending.exited t status →
    ∃ pre, r.calls = pre ++ [(t, Action.osExit status)] ∧
      (∀ x ∈ pre, x.2.isOsExit = false) ∧
      restoresBy t pre = 1 ∧
      (t = Thread.main → status = 0 ∧ ∃ s, (Thread.main, Action.receiveSignal s) ∈ pre) ∧
      (∀ g, t = Thread.go g → (Thread.go g, Action.callExit status) ∈ pre)) ∧
  (∀ t, restoresBy t r.calls ≤ 1) ∧
  restoreCount r.actions = (allThreads.map (fun t => restoresBy t r.calls)).sum

/-- The calls a thread may make: main never calls exitcodes.Exit, a goroutine
never receives a signal, and a blocked receive is never recorded. -/
def Origin (t : Thread) (a : Action) : Prop :=
  a ≠ Action.waitSignal ∧
  match t with
  | Thread.main => ∀ code, a ≠ Action.callExit code
  | Thread.go _ => ∀ s, a ≠ Action.receiveSignal s

/-- A request equal to the example request but for the rd bit. -/
def exRequestNoRd : Msg := { exRequest with RecursionDesired := false }

/-- Main runs through the go statements and the two log lines. -/
def exLaunch : List Tick := List.replicate 7 (Tick.run Thread.main)

/-- After the launch the tcp and the udp listener both fail to bind and both
call exitcodes.Exit, each reaching the restore before the tcp thread ends the
process. -/
def exBothListenersFail : List Tick :=
  exLaunch ++
  List.replicate 5 (Tick.run (Thread.go Goroutine.serveTcp)) ++
  List.replicate 5 (Tick.run (Thread.go Goroutine.serveUdp)) ++
  [Tick.run (Thread.go Goroutine.serveTcp)]

/-- After the launch the override succeeds, the tcp listener serves, a signal
arrives and main shuts down. -/
def exSignalled : List Tick :=
  exLaunch ++
  List.replicate 4 (Tick.run (Thread.go Goroutine.setupRequests)) ++
  List.replicate 2 (Tick.run (Thread.go Goroutine.serveTcp)) ++
  [Tick.signal 15] ++ List.replicate 4 (Tick.run Thread.main)

/-- After the launch the udp listener alone fails to bind and ends the
process. -/
def exUdpFails : List Tick :=
  exLaunch ++ List.replicate 6 (Tick.run (Thread.go Goroutine.serveUdp))

/-! ## Lemmas on traces and on the solver loop -/

theorem writes_append (xs ys : List Event) : writes (xs ++ ys) = writes xs ++ writes ys := by
  induction xs with
  | nil => rfl
  | cons e es ih => cases e <;> simp [writes, ih]

theorem invocations_append (xs ys : List Event) :
    invocations (xs ++ ys) = invocations xs ++ invocations ys := by
  induction xs with
  | nil => rfl
  | cons e es ih => cases e <;> simp [invocations, ih]

theorem writes_failedAttempts (ctx : Context) (q : Question) (l : List SolverId) :
    writes (failedAttempts ctx q l) = [] := by
  induction l with
  | nil => rfl
  | cons s rest ih => simp [failedAttempts, writes, ih]

theorem invocations_failedAttempts (ctx : Context) (q : Question) (l : List SolverId) :
    invocations (failedAttempts ctx q l) = l.map (fun s => (s, q)) := by
  induction l with
  | nil => rfl
  | cons s rest ih => simp [failedAttempts, invocations, ih]

theorem solveLoop_failed_append (conf : Conf)
    (solve : SolverId → Context → Question → SolveResult) (ctx : Context) (reqMsg : Msg)
    (q : Question) (pre l : List SolverId)
    (hpre : ∀ p ∈ pre, ReturnsError solve ctx q p) :
    solveLoop conf solve ctx reqMsg q (pre ++ l)
      = Run.after (failedAttempts ctx q pre) (solveLoop conf solve ctx reqMsg q l) := by
  induction pre with
  | nil => simp [failedAttempts, Run.after]
  | cons p ps ih =>
    obtain ⟨resp, e, hp⟩ := hpre p (List.mem_cons_self p ps)
    have ih2 := ih (fun x hx => hpre x (List.mem_cons_of_mem p hx))
    simp [solveLoop, hp, ih2, failedAttempts, Run.after]

theorem solveLoop_success (conf : Conf)
    (solve : SolverId → Context → Question → SolveResult) (ctx : Context) (reqMsg : Msg)
    (q : Question) (s : SolverId) (post : List SolverId) (resp : Msg)
    (hs : solve s ctx q = SolveResult.returned (some resp) none) :
    solveLoop conf solve ctx reqMsg q (s :: post)
      = ⟨[Event.log Level.debug "status=begin", Event.Solve s ctx q,
          Event.log Level.debug "status=answer-found",
          Event.log Level.debug "status=resolved",
          Event.WriteMsg (finalize conf reqMsg resp)], Completion.returned⟩ := by
  simp [solveLoop, hs, Run.after]

/-- The run of handleQuestion when the solvers before `s` return errors and `s`
returns a non-nil response with no error. -/
theorem handleQuestion_success (conf : Conf)
    (solve : SolverId → Context → Question → SolveResult) (ctx : Context) (reqMsg : Msg)
    (q : Question) (rest : List Question) (pre : List SolverId) (s : SolverId)
    (post : List SolverId) (resp : Msg)
    (hq : reqMsg.Question = q :: rest)
    (hchain : solvers = pre ++ s :: post)
    (hpre : ∀ p ∈ pre, ReturnsError solve ctx q p)
    (hs : solve s ctx q = SolveResult.returned (some resp) none) :
    handleQuestion conf solve ctx reqMsg
      = ⟨Event.log Level.debug "status=begin" :: (failedAttempts ctx q pre ++
          [Event.log Level.debug "status=begin", Event.Solve s ctx q,
           Event.log Level.debug "status=answer-found",
           Event.log Level.debug "status=resolved",
           Event.WriteMsg (finalize conf reqMsg resp)]), Completion.returned⟩ := by
  simp [handleQuestion, handleQuestionBody, hq, hchain,
    solveLoop_failed_append conf solve ctx reqMsg q pre (s :: post) hpre,
    solveLoop_success conf solve ctx reqMsg q s post resp hs, Run.after, recover]

theorem finalize_Id (conf : Conf) (reqMsg resp : Msg) :
    (finalize conf reqMsg resp).Id = reqMsg.Id := by
  unfold finalize Msg.SetReply
  cases reqMsg.Question <;> simp <;> split <;> rfl

theorem finalize_Compress (conf : Conf) (reqMsg resp : Msg) :
    (finalize conf reqMsg resp).Compress = conf.Compress := by
  unfold finalize
  rfl

theorem finalize_Answer (conf : Conf) (reqMsg resp : Msg) :
    (finalize conf reqMsg resp).Answer = resp.Answer := by
  unfold finalize Msg.SetReply
  cases reqMsg.Question <;> simp <;> split <;> rfl

theorem solvers_not_in_both (pre post : List SolverId) (s t : SolverId)
    (hchain : solvers = pre ++ s :: post) (ht : t ∈ post) : t ∉ pre ++ [s] := by
  have hnd : (pre ++ s :: post).Nodup := by
    rw [← hchain]
    decide
  have hnd2 : ((pre ++ [s]) ++ post).Nodup := by simpa using hnd
  intro hmem
  exact (List.disjoint_of_nodup_append hnd2) hmem ht

theorem not_invoked_of_not_mem (l : List SolverId) (q : Question) (t : SolverId)
    (ht : t ∉ l) (qq : Question) : (t, qq) ∉ l.map (fun x => (x, q)) := by
  intro hmem
  obtain ⟨x, hx, hEq⟩ := List.mem_map.mp hmem
  have : x = t := congrArg Prod.fst hEq
  exact ht (this ▸ hx)

/-- A fault of the solver at the head of the list stops the loop with a panic. -/
theorem solveLoop_fault (conf : Conf)
    (solve : SolverId → Context → Question → SolveResult) (ctx : Context) (reqMsg : Msg)
    (q : Question) (s : SolverId) (post : List SolverId)
    (hs : (∃ v, solve s ctx q = SolveResult.panicked v)
      ∨ solve s ctx q = SolveResult.returned none none) :
    ∃ v, solveLoop conf solve ctx reqMsg q (s :: post)
      = ⟨[Event.log Level.debug "status=begin", Event.Solve s ctx q],
          Completion.panicked v⟩ := by
  rcases hs with ⟨v, hv⟩ | hnil
  · exact ⟨v, by simp [solveLoop, hv, Run.after]⟩
  · exact ⟨"invalid memory address or nil pointer dereference",
      by simp [solveLoop, hnil, Run.after]⟩

/-- Every response written by the loop is a finalized solver response. -/
theorem writes_solveLoop (conf : Conf)
    (solve : SolverId → Context → Question → SolveResult) (ctx : Context) (reqMsg : Msg)
    (q : Question) (l : List SolverId) (m : Msg)
    (hm : m ∈ writes (solveLoop conf solve ctx reqMsg q l).events) :
    ∃ s resp, s ∈ l ∧ solve s ctx q = SolveResult.returned (some resp) none
      ∧ m = finalize conf reqMsg resp := by
  induction l with
  | nil => simp [solveLoop, writes] at hm
  | cons s rest ih =>
    cases hsolve : solve s ctx q with
    | panicked v => simp [solveLoop, hsolve, Run.after, writes] at hm
    | returned resp err =>
      cases err with
      | some e =>
        simp [solveLoop, hsolve, Run.after, writes] at hm
        obtain ⟨t, resp2, ht, hsol, hEq⟩ := ih hm
        exact ⟨t, resp2, List.mem_cons_of_mem s ht, hsol, hEq⟩
      | none =>
        cases resp with
        | none => simp [solveLoop, hsolve, Run.after, writes] at hm
        | some r =>
          simp [solveLoop, hsolve, Run.after, writes] at hm
          exact ⟨s, r, List.mem_cons_self s rest, hsolve, hm⟩

/-- A loop that ends in a panic has written nothing. -/
theorem writes_solveLoop_of_panicked (conf : Conf)
    (solve : SolverId → Context → Question → SolveResult) (ctx : Context) (reqMsg : Msg)
    (q : Question) (l : List SolverId) (v : String)
    (hv : (solveLoop conf solve ctx reqMsg q l).completion = Completion.panicked v) :
    writes (solveLoop conf solve ctx reqMsg q l).events = [] := by
  induction l with
  | nil => simp [solveLoop, writes]
  | cons s rest ih =>
    cases hsolve : solve s ctx q with
    | panicked w => simp [solveLoop, hsolve, Run.after, writes]
    | returned resp err =>
      cases err with
      | some e =>
        simp [solveLoop, hsolve, Run.after] at hv
        simp [solveLoop, hsolve, Run.after, writes, ih hv]
      | none =>
        cases resp with
        | none => simp [solveLoop, hsolve, Run.after, writes]
        | some r => simp [solveLoop, hsolve, Run.after] at hv

/-- Every invocation made by the loop carries the question the loop was given. -/
theorem invocations_solveLoop (conf : Conf)
    (solve : SolverId → Context → Question → SolveResult) (ctx : Context) (reqMsg : Msg)
    (q : Question) (l : List SolverId) (p : SolverId × Question)
    (hp : p ∈ invocations (solveLoop conf solve ctx reqMsg q l).events) : p.2 = q := by
  induction l with
  | nil => simp [solveLoop, invocations] at hp
  | cons s rest ih =>
    cases hsolve : solve s ctx q with
    | panicked w =>
      simp [solveLoop, hsolve, Run.after, invocations] at hp
      simp [hp]
    | returned resp err =>
      cases err with
      | some e =>
        simp [solveLoop, hsolve, Run.after, invocations] at hp
        rcases hp with hp | hp
        · simp [hp]
        · exact ih hp
      | none =>
        cases resp with
        | none =>
          simp [solveLoop, hsolve, Run.after, invocations] at hp
          simp [hp]
        | some r =>
          simp [solveLoop, hsolve, Run.after, invocations] at hp
          simp [hp]

/-- The finalized response depends on the request only through its id, its
opcode, its rd and cd bits and its first question. -/
theorem finalize_same_header (conf : Conf) (req1 req2 resp : Msg) (q : Question)
    (rest1 rest2 : List Question)
    (hq1 : req1.Question = q :: rest1) (hq2 : req2.Question = q :: rest2)
    (hid : req1.Id = req2.Id) (hop : req1.Opcode = req2.Opcode)
    (hrd : req1.RecursionDesired = req2.RecursionDesired)
    (hcd : req1.CheckingDisabled = req2.CheckingDisabled) :
    finalize conf req1 resp = finalize conf req2 resp := by
  simp [finalize, Msg.SetReply, hq1, hq2, hid, hop, hrd, hcd]

theorem solveLoop_same_header (conf : Conf)
    (solve : SolverId → Context → Question → SolveResult) (ctx : Context) (req1 req2 : Msg)
    (q : Question) (rest1 rest2 : List Question)
    (hq1 : req1.Question = q :: rest1) (hq2 : req2.Question = q :: rest2)
    (hid : req1.Id = req2.Id) (hop : req1.Opcode = req2.Opcode)
    (hrd : req1.RecursionDesired = req2.RecursionDesired)
    (hcd : req1.CheckingDisabled = req2.CheckingDisabled) (l : List SolverId) :
    solveLoop conf solve ctx req1 q l = solveLoop conf solve ctx req2 q l := by
  induction l with
  | nil => rfl
  | cons s rest ih =>
    simp only [solveLoop, ih,
      fun resp => finalize_same_header conf req1 req2 resp q rest1 rest2 hq1 hq2 hid hop hrd hcd]

/-- The solver invocations of the loop do not depend on the request message. -/
theorem invocations_solveLoop_request (conf : Conf)
    (solve : SolverId → Context → Question → SolveResult) (ctx : Context) (req1 req2 : Msg)
    (q : Question) (l : List SolverId) :
    invocations (solveLoop conf solve ctx req1 q l).events
      = invocations (solveLoop conf solve ctx req2 q l).events := by
  induction l with
  | nil => rfl
  | cons s rest ih =>
    cases hsolve : solve s ctx q with
    | panicked w => simp [solveLoop, hsolve, Run.after, invocations]
    | returned resp err =>
      cases err with
      | some e => simp [solveLoop, hsolve, Run.after, invocations, ih]
      | none =>
        cases resp with
        | none => simp [solveLoop, hsolve, Run.after, invocations]
        | some r => simp [solveLoop, hsolve, Run.after, invocations]

/-- The solver invocations of handleQuestion are those of the loop over the chain. -/
theorem invocations_handleQuestion (conf : Conf)
    (solve : SolverId → Context → Question → SolveResult) (ctx : Context) (reqMsg : Msg)
    (q : Question) (rest : List Question) (hq : reqMsg.Question = q :: rest) :
    invocations (handleQuestion conf solve ctx reqMsg).events
      = invocations (solveLoop conf solve ctx reqMsg q solvers).events := by
  unfold handleQuestion
  simp only [handleQuestionBody, hq, Run.after]
  split
  · simp [invocations, invocations_append]
  · simp [invocations]

/-! ## The query dispatcher -/

/-- C1 (as amended): for a request with at least one question, when the solvers
before `s` in the chain docker, local, remote all return an error and `s` returns
no error together with a non-nil response, handleQuestion writes exactly one
response, the finalized response of `s`; the solvers invoked are exactly those up
to and including `s`, in chain order, and no solver after `s` is invoked. -/
theorem handleQuestion_first_success_wins (conf : Conf)
    (solve : SolverId → Context → Question → SolveResult) (ctx : Context) (reqMsg : Msg)
    (q : Question) (rest : List Question) (pre : List SolverId) (s : SolverId)
    (post : List SolverId) (resp : Msg)
    (hq : reqMsg.Question = q :: rest)
    (hchain : solvers = pre ++ s :: post)
    (hpre : ∀ p ∈ pre, ReturnsError solve ctx q p)
    (hs : solve s ctx q = SolveResult.returned (some resp) none) :
    solvers = [SolverId.docker, SolverId.localDns, SolverId.remote] ∧
    writes (handleQuestion conf solve ctx reqMsg).events = [finalize conf reqMsg resp] ∧
    invocations (handleQuestion conf solve ctx reqMsg).events
      = (pre ++ [s]).map (fun x => (x, q)) ∧
    (∀ t ∈ post, ∀ qq, (t, qq) ∉ invocations (handleQuestion conf solve ctx reqMsg).events) ∧
    (handleQuestion conf solve ctx reqMsg).completion = Completion.returned := by
  have hrun := handleQuestion_success conf solve ctx reqMsg q rest pre s post resp hq hchain hpre hs
  have hinv : invocations (handleQuestion conf solve ctx reqMsg).events
      = (pre ++ [s]).map (fun x => (x, q)) := by
    rw [hrun]
    simp [invocations, invocations_append, invocations_failedAttempts]
  refine ⟨rfl, ?_, hinv, ?_, ?_⟩
  · rw [hrun]
    simp [writes, writes_append, writes_failedAttempts]
  · intro t ht qq
    rw [hinv]
    exact not_invoked_of_not_mem (pre ++ [s]) q t (solvers_not_in_both pre post s t hchain ht) qq
  · rw [hrun]

/-- C1, example of the amended statement: docker and local fail, the remote
solver answers; the one response written is the remote one and all three solvers
were invoked in order. -/
theorem handleQuestion_first_success_wins_witness :
    solvers = [SolverId.docker, SolverId.localDns, SolverId.remote] ∧
    writes (handleQuestion exConf solveRemoteOnly exCtx exRequest).events
      = [finalize exConf exRequest exAnswer] ∧
    invocations (handleQuestion exConf solveRemoteOnly exCtx exRequest).events
      = ([SolverId.docker, SolverId.localDns] ++ [SolverId.remote]).map
          (fun x => (x, exQuestion)) ∧
    (∀ t ∈ ([] : List SolverId), ∀ qq,
      (t, qq) ∉ invocations (handleQuestion exConf solveRemoteOnly exCtx exRequest).events) ∧
    (handleQuestion exConf solveRemoteOnly exCtx exRequest).completion
      = Completion.returned :=
  handleQuestion_first_success_wins exConf solveRemoteOnly exCtx exRequest exQuestion
    [⟨"other.local.", 28, 1⟩] [SolverId.docker, SolverId.localDns] SolverId.remote []
    exAnswer rfl rfl
    (by
      intro p hp
      simp only [List.mem_cons, List.mem_singleton, List.not_mem_nil, or_false] at hp
      rcases hp with rfl | rfl
      · exact ⟨none, "hostname not found", rfl⟩
      · exact ⟨none, "hostname not found", rfl⟩)
    rfl

/-- C1 as stated fails: the docker solver, first in the chain, returns no error
(with a nil response) and no solver panics, yet handleQuestion writes no
response at all. -/
theorem handleQuestion_nil_response_counterexample :
    exRequest.Question ≠ [] ∧
    solveNilDocker SolverId.docker exCtx exQuestion = SolveResult.returned none none ∧
    (∀ s ∈ solvers, ∀ v, solveNilDocker s exCtx exQuestion ≠ SolveResult.panicked v) ∧
    writes (handleQuestion exConf solveNilDocker exCtx exRequest).events = [] := by
  refine ⟨by decide, rfl, ?_, by decide⟩
  intro s _ v
  cases s <;> simp [solveNilDocker]

/-- C2: for a request with at least one question, when all three solvers return
an error for the first question, each solver is invoked exactly once, in chain
order, no fault occurs and no response is written. -/
theorem handleQuestion_exhaustion (conf : Conf)
    (solve : SolverId → Context → Question → SolveResult) (ctx : Context) (reqMsg : Msg)
    (q : Question) (rest : List Question)
    (hq : reqMsg.Question = q :: rest)
    (hall : ∀ s ∈ solvers, ReturnsError solve ctx q s) :
    invocations (handleQuestion conf solve ctx reqMsg).events
      = [(SolverId.docker, q), (SolverId.localDns, q), (SolverId.remote, q)] ∧
    writes (handleQuestion conf solve ctx reqMsg).events = [] ∧
    (handleQuestionBody conf solve ctx reqMsg).completion = Completion.returned ∧
    (handleQuestion conf solve ctx reqMsg).completion = Completion.returned := by
  have hloop := solveLoop_failed_append conf solve ctx reqMsg q solvers [] hall
  rw [List.append_nil] at hloop
  have hnil : solveLoop conf solve ctx reqMsg q [] = ⟨[], Completion.returned⟩ := rfl
  rw [hnil] at hloop
  have hbody : handleQuestionBody conf solve ctx reqMsg
      = ⟨Event.log Level.debug "status=begin" :: failedAttempts ctx q solvers,
          Completion.returned⟩ := by
    simp only [handleQuestionBody, hq, hloop, Run.after, List.append_nil, List.singleton_append]
  have hrun : handleQuestion conf solve ctx reqMsg
      = ⟨Event.log Level.debug "status=begin" :: failedAttempts ctx q solvers,
          Completion.returned⟩ := by
    simp [handleQuestion, hbody, recover]
  refine ⟨?_, ?_, ?_, ?_⟩
  · rw [hrun]
    simp [invocations, invocations_failedAttempts, solvers]
  · rw [hrun]
    simp [writes, writes_failedAttempts]
  · rw [hbody]
  · rw [hrun]

/-- C2, example: all three solvers fail for the example request. -/
theorem handleQuestion_exhaustion_witness :
    invocations (handleQuestion exConf solveAllFail exCtx exRequest).events
      = [(SolverId.docker, exQuestion), (SolverId.localDns, exQuestion),
         (SolverId.remote, exQuestion)] ∧
    writes (handleQuestion exConf solveAllFail exCtx exRequest).events = [] ∧
    (handleQuestionBody exConf solveAllFail exCtx exRequest).completion
      = Completion.returned ∧
    (handleQuestion exConf solveAllFail exCtx exRequest).completion = Completion.returned :=
  handleQuestion_exhaustion exConf solveAllFail exCtx exRequest exQuestion
    [⟨"other.local.", 28, 1⟩] rfl
    (fun _ _ => ⟨none, "hostname not found", rfl⟩)

/-- C3: every response written by handleQuestion is the response some solver
returned without error, finalized; its transaction id is the id of the request
and its Compress flag is the configured value, whatever the solver had put
there. -/
theorem handleQuestion_id_and_compress (conf : Conf)
    (solve : SolverId → Context → Question → SolveResult) (ctx : Context) (reqMsg : Msg)
    (m : Msg) (hm : m ∈ writes (handleQuestion conf solve ctx reqMsg).events) :
    m.Id = reqMsg.Id ∧ m.Compress = conf.Compress ∧
    ∃ s resp q, solve s ctx q = SolveResult.returned (some resp) none
      ∧ m = finalize conf reqMsg resp := by
  have key : ∃ s resp q, solve s ctx q = SolveResult.returned (some resp) none
      ∧ m = finalize conf reqMsg resp := by
    cases hQ : reqMsg.Question with
    | nil => simp [handleQuestion, handleQuestionBody, hQ, recover, writes] at hm
    | cons q rest =>
      have hm2 : m ∈ writes (solveLoop conf solve ctx reqMsg q solvers).events := by
        unfold handleQuestion at hm
        simp only [handleQuestionBody, hQ, Run.after] at hm
        split at hm
        · simpa [writes, writes_append] using hm
        · simpa [writes] using hm
      obtain ⟨s, resp, _, hsol, hEq⟩ := writes_solveLoop conf solve ctx reqMsg q solvers m hm2
      exact ⟨s, resp, q, hsol, hEq⟩
  obtain ⟨s, resp, q, hsol, hEq⟩ := key
  refine ⟨?_, ?_, s, resp, q, hsol, hEq⟩
  · rw [hEq]
    exact finalize_Id conf reqMsg resp
  · rw [hEq]
    exact finalize_Compress conf reqMsg resp

/-- C3, example: the docker solver returns a response with id 7 and compression
on; the response written has the request id 42 and the configured flag. -/
theorem handleQuestion_id_and_compress_witness :
    finalize exConf exRequest exAnswer
      ∈ writes (handleQuestion exConf solveDocker exCtx exRequest).events ∧
    exAnswer.Id = 7 ∧ exAnswer.Compress = true ∧
    (finalize exConf exRequest exAnswer).Id = 42 ∧
    (finalize exConf exRequest exAnswer).Compress = false :=
  have h := handleQuestion_id_and_compress exConf solveDocker exCtx exRequest
    (finalize exConf exRequest exAnswer) (by decide)
  ⟨by decide, rfl, rfl, h.1, h.2.1⟩

/-- C4: handleQuestion always returns normally to its caller. Whenever its body
panics, the deferred function recovers the panic and logs it, and no response has
been written. The body does panic when, for a request with a question, the
solvers before `s` return errors and `s` either panics or returns no error
together with a nil response. -/
theorem handleQuestion_contains_faults (conf : Conf)
    (solve : SolverId → Context → Question → SolveResult) (ctx : Context) (reqMsg : Msg) :
    (handleQuestion conf solve ctx reqMsg).completion = Completion.returned ∧
    (∀ v, (handleQuestionBody conf solve ctx reqMsg).completion = Completion.panicked v →
      writes (handleQuestion conf solve ctx reqMsg).events = [] ∧
      Event.log Level.error "status=error" ∈ (handleQuestion conf solve ctx reqMsg).events) ∧
    (∀ q rest pre s post, reqMsg.Question = q :: rest → solvers = pre ++ s :: post →
      (∀ p ∈ pre, ReturnsError solve ctx q p) →
      ((∃ v, solve s ctx q = SolveResult.panicked v)
        ∨ solve s ctx q = SolveResult.returned none none) →
      ∃ v, (handleQuestionBody conf solve ctx reqMsg).completion = Completion.panicked v) := by
  refine ⟨?_, ?_, ?_⟩
  · unfold handleQuestion
    simp only []
    split <;> rfl
  · intro v hv
    have hw : writes (handleQuestionBody conf solve ctx reqMsg).events = [] := by
      cases hQ : reqMsg.Question with
      | nil => simp [handleQuestionBody, hQ] at hv
      | cons q rest =>
        simp only [handleQuestionBody, hQ, Run.after] at hv ⊢
        rw [writes_append, writes_solveLoop_of_panicked conf solve ctx reqMsg q solvers v hv]
        rfl
    simp [handleQuestion, hv, recover, writes_append, hw, writes]
  · intro q rest pre s post hq hchain hpre hs
    obtain ⟨v, hv⟩ := solveLoop_fault conf solve ctx reqMsg q s post hs
    refine ⟨v, ?_⟩
    simp only [handleQuestionBody, hq, hchain, Run.after,
      solveLoop_failed_append conf solve ctx reqMsg q pre (s :: post) hpre, hv]

/-- C4, example: the docker solver fails and the local solver panics; the call
returns normally, the fault is logged and nothing is written. The same holds when
the docker solver returns a nil response with a nil error. -/
theorem handleQuestion_contains_faults_witness :
    (handleQuestion exConf solveLocalPanics exCtx exRequest).completion
      = Completion.returned ∧
    (writes (handleQuestion exConf solveLocalPanics exCtx exRequest).events = [] ∧
      Event.log Level.error "status=error"
        ∈ (handleQuestion exConf solveLocalPanics exCtx exRequest).events) ∧
    (∃ v, (handleQuestionBody exConf solveLocalPanics exCtx exRequest).completion
      = Completion.panicked v) ∧
    (∃ v, (handleQuestionBody exConf solveNilDocker exCtx exRequest).completion
      = Completion.panicked v) :=
  ⟨(handleQuestion_contains_faults exConf solveLocalPanics exCtx exRequest).1,
   (handleQuestion_contains_faults exConf solveLocalPanics exCtx exRequest).2.1
     "store is closed" rfl,
   (handleQuestion_contains_faults exConf solveLocalPanics exCtx exRequest).2.2
     exQuestion [⟨"other.local.", 28, 1⟩] [SolverId.docker] SolverId.localDns
     [SolverId.remote] rfl rfl
     (by
       intro p hp
       simp only [List.mem_singleton] at hp
       subst hp
       exact ⟨none, "hostname not found", rfl⟩)
     (Or.inl ⟨"store is closed", rfl⟩),
   (handleQuestion_contains_faults exConf solveNilDocker exCtx exRequest).2.2
     exQuestion [⟨"other.local.", 28, 1⟩] [] SolverId.docker
     [SolverId.localDns, SolverId.remote] rfl rfl
     (by
       intro p hp
       simp at hp)
     (Or.inr rfl)⟩

/-- C5 (as amended): for a request with one or more questions every solver
invoked is given the first question of the request; any two requests with the
same first question produce the same solver invocations; two requests with the
same id, the same opcode, the same rd and cd bits and the same first question
produce the same run, hence the same written response, whatever their other
questions are; for a request with no question no solver is invoked, nothing is
written and no fault is raised. -/
theorem handleQuestion_single_question (conf : Conf)
    (solve : SolverId → Context → Question → SolveResult) (ctx : Context) (reqMsg : Msg) :
    (∀ q rest, reqMsg.Question = q :: rest →
      ∀ p ∈ invocations (handleQuestion conf solve ctx reqMsg).events, p.2 = q) ∧
    (∀ other q rest1 rest2, reqMsg.Question = q :: rest1 → other.Question = q :: rest2 →
      invocations (handleQuestion conf solve ctx reqMsg).events
        = invocations (handleQuestion conf solve ctx other).events) ∧
    (∀ other q rest1 rest2, reqMsg.Question = q :: rest1 → other.Question = q :: rest2 →
      reqMsg.Id = other.Id → reqMsg.Opcode = other.Opcode →
      reqMsg.RecursionDesired = other.RecursionDesired →
      reqMsg.CheckingDisabled = other.CheckingDisabled →
      handleQuestion conf solve ctx reqMsg = handleQuestion conf solve ctx other) ∧
    (reqMsg.Question = [] →
      invocations (handleQuestion conf solve ctx reqMsg).events = [] ∧
      writes (handleQuestion conf solve ctx reqMsg).events = [] ∧
      (handleQuestionBody conf solve ctx reqMsg).completion = Completion.returned ∧
      handleQuestion conf solve ctx reqMsg
        = ⟨[Event.log Level.error "status=question-is-nil"], Completion.returned⟩) := by
  refine ⟨?_, ?_, ?_, ?_⟩
  · intro q rest hq p hp
    rw [invocations_handleQuestion conf solve ctx reqMsg q rest hq] at hp
    exact invocations_solveLoop conf solve ctx reqMsg q solvers p hp
  · intro other q rest1 rest2 hq1 hq2
    rw [invocations_handleQuestion conf solve ctx reqMsg q rest1 hq1,
      invocations_handleQuestion conf solve ctx other q rest2 hq2]
    exact invocations_solveLoop_request conf solve ctx reqMsg other q solvers
  · intro other q rest1 rest2 hq1 hq2 hid hop hrd hcd
    simp only [handleQuestion, handleQuestionBody, hq1, hq2,
      solveLoop_same_header conf solve ctx reqMsg other q rest1 rest2 hq1 hq2 hid hop hrd hcd
        solvers]
  · intro hq
    have hbody : handleQuestionBody conf solve ctx reqMsg
        = ⟨[Event.log Level.error "status=question-is-nil"], Completion.returned⟩ := by
      simp only [handleQuestionBody, hq]
    have hrun : handleQuestion conf solve ctx reqMsg
        = ⟨[Event.log Level.error "status=question-is-nil"], Completion.returned⟩ := by
      simp [handleQuestion, hbody, recover]
    refine ⟨?_, ?_, ?_, hrun⟩
    · rw [hrun]
      rfl
    · rw [hrun]
      rfl
    · rw [hbody]

/-- C5, example of the amended statement: the two-question request is answered
from its first question, as the request with the same header and the first
question alone is, and the request without questions is dropped. -/
theorem handleQuestion_single_question_witness :
    (∀ p ∈ invocations (handleQuestion exConf solveRemoteOnly exCtx exRequest).events,
      p.2 = exQuestion) ∧
    handleQuestion exConf solveRemoteOnly exCtx exRequest
      = handleQuestion exConf solveRemoteOnly exCtx
        { exRequest with Question := [exQuestion] } ∧
    (invocations (handleQuestion exConf solveRemoteOnly exCtx exEmptyRequest).events = [] ∧
      writes (handleQuestion exConf solveRemoteOnly exCtx exEmptyRequest).events = [] ∧
      (handleQuestionBody exConf solveRemoteOnly exCtx exEmptyRequest).completion
        = Completion.returned ∧
      handleQuestion exConf solveRemoteOnly exCtx exEmptyRequest
        = ⟨[Event.log Level.error "status=question-is-nil"], Completion.returned⟩) :=
  ⟨(handleQuestion_single_question exConf solveRemoteOnly exCtx exRequest).1
     exQuestion [⟨"other.local.", 28, 1⟩] rfl,
   (handleQuestion_single_question exConf solveRemoteOnly exCtx exRequest).2.2.1
     { exRequest with Question := [exQuestion] } exQuestion [⟨"other.local.", 28, 1⟩] []
     rfl rfl rfl rfl rfl rfl,
   (handleQuestion_single_question exConf solveRemoteOnly exCtx exEmptyRequest).2.2.2 rfl⟩

/-- C5 as stated fails: two requests with the same id and the same questions
that differ in the rd bit get different written responses, because SetReply
copies the rd bit of the request into the response. -/
theorem handleQuestion_rd_bit_counterexample :
    exRequest.Id = exRequestNoRd.Id ∧
    exRequest.Question = exRequestNoRd.Question ∧
    invocations (handleQuestion exConf solveDocker exCtx exRequest).events
      = invocations (handleQuestion exConf solveDocker exCtx exRequestNoRd).events ∧
    writes (handleQuestion exConf solveDocker exCtx exRequest).events
      ≠ writes (handleQuestion exConf solveDocker exCtx exRequestNoRd).events := by
  decide

/-- C9: when the solvers before `s` return errors and `s` returns no error
together with a response that has no answer record, handleQuestion writes that
response, still without answers, with the id of the request and the configured
Compress flag, and invokes no later solver, whatever the later solvers would
have returned. -/
theorem handleQuestion_empty_answer_is_success (conf : Conf)
    (solve : SolverId → Context → Question → SolveResult) (ctx : Context) (reqMsg : Msg)
    (q : Question) (rest : List Question) (pre : List SolverId) (s : SolverId)
    (post : List SolverId) (resp : Msg)
    (hq : reqMsg.Question = q :: rest)
    (hchain : solvers = pre ++ s :: post)
    (hpre : ∀ p ∈ pre, ReturnsError solve ctx q p)
    (hs : solve s ctx q = SolveResult.returned (some resp) none)
    (hempty : resp.Answer = []) :
    writes (handleQuestion conf solve ctx reqMsg).events = [finalize conf reqMsg resp] ∧
    (finalize conf reqMsg resp).Answer = [] ∧
    (finalize conf reqMsg resp).Id = reqMsg.Id ∧
    (finalize conf reqMsg resp).Compress = conf.Compress ∧
    invocations (handleQuestion conf solve ctx reqMsg).events
      = (pre ++ [s]).map (fun x => (x, q)) ∧
    (∀ t ∈ post, ∀ qq, (t, qq) ∉ invocations (handleQuestion conf solve ctx reqMsg).events) := by
  have hrun := handleQuestion_success conf solve ctx reqMsg q rest pre s post resp hq hchain hpre hs
  have hinv : invocations (handleQuestion conf solve ctx reqMsg).events
      = (pre ++ [s]).map (fun x => (x, q)) := by
    rw [hrun]
    simp [invocations, invocations_append, invocations_failedAttempts]
  refine ⟨?_, ?_, finalize_Id conf reqMsg resp, finalize_Compress conf reqMsg resp, hinv, ?_⟩
  · rw [hrun]
    simp [writes, writes_append, writes_failedAttempts]
  · rw [finalize_Answer, hempty]
  · intro t ht qq
    rw [hinv]
    exact not_invoked_of_not_mem (pre ++ [s]) q t (solvers_not_in_both pre post s t hchain ht) qq

/-- C9, example: the docker solver returns a response without answers while the
local and remote solvers would return an answer; the empty response is written
and only the docker solver is invoked. -/
theorem handleQuestion_empty_answer_is_success_witness :
    solveEmptyDocker SolverId.localDns exCtx exQuestion
      = SolveResult.returned (some exAnswer) none ∧
    writes (handleQuestion exConf solveEmptyDocker exCtx exRequest).events
      = [finalize exConf exRequest exNoAnswer] ∧
    (finalize exConf exRequest exNoAnswer).Answer = [] ∧
    (finalize exConf exRequest exNoAnswer).Id = exRequest.Id ∧
    (finalize exConf exRequest exNoAnswer).Compress = exConf.Compress ∧
    invocations (handleQuestion exConf solveEmptyDocker exCtx exRequest).events
      = ([] ++ [SolverId.docker]).map (fun x => (x, exQuestion)) ∧
    (∀ t ∈ [SolverId.localDns, SolverId.remote], ∀ qq,
      (t, qq) ∉ invocations (handleQuestion exConf solveEmptyDocker exCtx exRequest).events) :=
  ⟨rfl,
   handleQuestion_empty_answer_is_success exConf solveEmptyDocker exCtx exRequest exQuestion
     [⟨"other.local.", 28, 1⟩] [] SolverId.docker [SolverId.localDns, SolverId.remote]
     exNoAnswer rfl rfl
     (by
       intro p hp
       simp at hp)
     rfl rfl⟩

/-! ## Lemmas on startup and on the process -/

theorem indexByte_eq_none_iff (sep : Char) (l : List Char) :
    indexByte sep l = none ↔ sep ∉ l := by
  induction l with
  | nil => simp [indexByte]
  | cons c cs ih =>
    by_cases h : c = sep
    · simp [indexByte, h]
    · have h2 : ¬ sep = c := fun e => h e.symm
      simp [indexByte, h, h2, ih]

theorem indexByte_append_sep (sep : Char) (l r : List Char) (h : sep ∉ l) :
    indexByte sep (l ++ sep :: r) = some l.length := by
  induction l with
  | nil => simp [indexByte]
  | cons c cs ih =>
    have hc : ¬ c = sep := fun e => h (e ▸ List.mem_cons_self c cs)
    have hcs : sep ∉ cs := fun hm => h (List.mem_cons_of_mem c hm)
    simp [indexByte, hc, ih hcs]

theorem utf8ByteSize_pos (s : String) (h : s ≠ "") : 0 < s.utf8ByteSize := by
  obtain ⟨l⟩ := s
  cases l with
  | nil => exact absurd rfl h
  | cons c cs =>
    have : 0 < c.utf8Size := Char.utf8Size_pos c
    simp only [String.utf8ByteSize, String.utf8ByteSize.go]
    omega

theorem SplitN_two (s : String) (h : s ≠ "") :
    SplitN s ':' 2 = (genSplit ':' 1 s.data).map String.mk := by
  have hpos := utf8ByteSize_pos s h
  have hcap : ¬ (2 > s.utf8ByteSize + 1) := by omega
  simp [SplitN, hcap]

theorem tsigNameSecret_no_colon (tsig : String) (h : tsig ≠ "") (hc : ':' ∉ tsig.data) :
    tsigNameSecret tsig = Except.error "runtime error: index out of range" := by
  have hidx := (indexByte_eq_none_iff ':' tsig.data).mpr hc
  simp [tsigNameSecret, h, SplitN_two tsig h, genSplit, hidx]

theorem drop_length_succ_append (l r : List Char) (x : Char) :
    List.drop (l.length + 1) (l ++ x :: r) = r := by
  induction l with
  | nil => rfl
  | cons c cs ih => simp [ih]

theorem tsigNameSecret_colon (before after : String) (hb : ':' ∉ before.data) :
    tsigNameSecret (before ++ ":" ++ after) = Except.ok (Fqdn before, after) := by
  have hdata : (before ++ ":" ++ after).data = before.data ++ ':' :: after.data := by
    simp [String.data_append]
  have hne : before ++ ":" ++ after ≠ "" := by
    intro e
    have := congrArg String.data e
    rw [hdata] at this
    simp at this
  have hidx := indexByte_append_sep ':' before.data after.data hb
  have hdrop : List.drop (before.length + 1) (before.data ++ ':' :: after.data)
      = after.data := drop_length_succ_append before.data after.data ':'
  simp [tsigNameSecret, hne, SplitN_two _ hne, genSplit, hdata, hidx, hdrop]

theorem Fqdn_eq (s : String) :
    Fqdn s = if s.data.getLast? = some '.' then s else s ++ "." := by
  unfold Fqdn IsFqdn
  cases h : s.data.getLast? with
  | none => simp
  | some c => by_cases hc : c = '.' <;> simp [hc]

theorem Fqdn_ne_empty (s : String) : Fqdn s ≠ "" := by
  rw [Fqdn_eq]
  intro e
  have hd := congrArg String.data e
  split at hd
  · rename_i hlast
    have hnil : s.data = [] := hd
    rw [hnil] at hlast
    simp at hlast
  · simp [String.data_append] at hd

theorem servers_serve (conf : Conf) (codes : ExitCodes) (env : Env) (net name secret : String) :
    servers (serve conf codes env net name secret)
      = [⟨":" ++ toString conf.DnsServerPort, net,
          if name = "" then none else some [(name, secret)]⟩] := by
  unfold serve
  by_cases hn : name = ""
  · simp only [hn, if_true]
    cases env.ListenAndServe ⟨":" ++ toString conf.DnsServerPort, net, none⟩ <;> simp [servers]
  · simp only [hn, if_false]
    cases env.ListenAndServe ⟨":" ++ toString conf.DnsServerPort, net, some [(name, secret)]⟩ <;>
      simp [servers]

theorem exitCode?_serve (conf : Conf) (codes : ExitCodes) (env : Env) (net name secret : String)
    (hbind : ∀ server, server.Net = net → ∃ err, env.ListenAndServe server = some err) :
    exitCode? (serve conf codes env net name secret) = some codes.FAIL_START_DNS_SERVER := by
  unfold serve
  by_cases hn : name = ""
  · obtain ⟨err, herr⟩ := hbind ⟨":" ++ toString conf.DnsServerPort, net, none⟩ rfl
    simp [hn, herr, exitCode?]
  · obtain ⟨err, herr⟩ := hbind ⟨":" ++ toString conf.DnsServerPort, net, some [(name, secret)]⟩ rfl
    simp [hn, herr, exitCode?]

theorem wellFormedBody_goroutineBody (conf : Conf) (codes : ExitCodes) (env : Env)
    (name secret : String) (g : Goroutine) :
    wellFormedBody (goroutineBody conf codes env name secret g) = true := by
  cases g
  · rfl
  · unfold goroutineBody serve
    by_cases hn : name = ""
    · simp only [hn, if_true]
      cases env.ListenAndServe ⟨":" ++ toString conf.DnsServerPort, "tcp", none⟩ <;>
        simp [wellFormedBody, Action.quiet]
    · simp only [hn, if_false]
      cases env.ListenAndServe
          ⟨":" ++ toString conf.DnsServerPort, "tcp", some [(name, secret)]⟩ <;>
        simp [wellFormedBody, Action.quiet]
  · unfold goroutineBody serve
    by_cases hn : name = ""
    · simp only [hn, if_true]
      cases env.ListenAndServe ⟨":" ++ toString conf.DnsServerPort, "udp", none⟩ <;>
        simp [wellFormedBody, Action.quiet]
    · simp only [hn, if_false]
      cases env.ListenAndServe
          ⟨":" ++ toString conf.DnsServerPort, "udp", some [(name, secret)]⟩ <;>
        simp [wellFormedBody, Action.quiet]
  · unfold goroutineBody webServer
    simp only []
    split <;> simp [wellFormedBody, Action.quiet]
  · unfold goroutineBody setupRequests
    cases conf.SetupResolvConf <;> cases env.SetCurrentDNSServerToMachine <;>
      simp [wellFormedBody, Action.quiet]

theorem servers_append (xs ys : List Action) : servers (xs ++ ys) = servers xs ++ servers ys := by
  induction xs with
  | nil => rfl
  | cons a as ih => cases a <;> simp [servers, ih]

theorem servers_goroutineBody (conf : Conf) (codes : ExitCodes) (env : Env)
    (name secret : String) (g : Goroutine) (server : Server)
    (h : server ∈ servers (goroutineBody conf codes env name secret g)) :
    server = ⟨":" ++ toString conf.DnsServerPort, "tcp",
        if name = "" then none else some [(name, secret)]⟩
      ∨ server = ⟨":" ++ toString conf.DnsServerPort, "udp",
        if name = "" then none else some [(name, secret)]⟩ := by
  cases g
  · simp [goroutineBody, servers] at h
  · simp only [goroutineBody, servers_serve, List.mem_singleton] at h
    exact Or.inl h
  · simp only [goroutineBody, servers_serve, List.mem_singleton] at h
    exact Or.inr h
  · exfalso
    unfold goroutineBody webServer at h
    simp only [] at h
    split at h <;> simp [servers] at h
  · exfalso
    unfold goroutineBody setupRequests at h
    cases hs : conf.SetupResolvConf <;> cases he : env.SetCurrentDNSServerToMachine <;>
      simp [servers, hs, he] at h


/-! ## Lemmas on the interleaved process -/

theorem emits_isRestore (t : Thread) (a b : Action) (h : Emits t a b) :
    b.isRestore = a.isRestore := by
  rcases h with ⟨hb, _⟩ | ⟨_, ha, s, hb⟩
  · rw [hb]
  · rw [ha, hb]
    rfl

theorem emits_isOsExit (t : Thread) (a b : Action) (h : Emits t a b) :
    b.isOsExit = a.isOsExit := by
  rcases h with ⟨hb, _⟩ | ⟨_, ha, s, hb⟩
  · rw [hb]
  · rw [ha, hb]
    rfl

theorem emits_exitTrigger (status : Nat) (t : Thread) (a b : Action) (h : Emits t a b) :
    exitTrigger status b = exitTrigger status a := by
  rcases h with ⟨hb, _⟩ | ⟨_, ha, s, hb⟩
  · rw [hb]
  · rw [ha, hb]
    rfl

theorem emits_osExit (t : Thread) (a b : Action) (status : Nat) (h : Emits t a b)
    (hb : b = Action.osExit status) : a = Action.osExit status := by
  rcases h with ⟨hba, _⟩ | ⟨_, _, s, hbs⟩
  · rw [← hba, hb]
  · rw [hb] at hbs
    cases hbs

theorem restoreCount_cons (a : Action) (as : List Action) :
    restoreCount (a :: as) = restoreCount as + (if a.isRestore = true then 1 else 0) := by
  cases a <;> simp [restoreCount, Action.isRestore, List.count_cons]

theorem restoresBy_append_single (t u : Thread) (b : Action) (calls : List (Thread × Action)) :
    restoresBy t (calls ++ [(u, b)])
      = restoresBy t calls + (if u = t ∧ b.isRestore = true then 1 else 0) := by
  by_cases hu : u = t
  · cases b <;> simp [restoresBy, List.count_append, List.count_cons, Action.isRestore, hu]
  · cases b <;> simp [restoresBy, List.count_append, List.count_cons, Action.isRestore, hu]

theorem happened_append_single (trigger : Action → Bool) (t u : Thread) (b : Action)
    (calls : List (Thread × Action)) :
    happened trigger t (calls ++ [(u, b)])
      = (happened trigger t calls || (decide (u = t) && trigger b)) := by
  simp [happened, List.any_append]

theorem restoresBy_pos_of_happened (t : Thread) (calls : List (Thread × Action))
    (h : happened Action.isRestore t calls = true) : 1 ≤ restoresBy t calls := by
  induction calls with
  | nil => simp [happened] at h
  | cons x xs ih =>
    obtain ⟨u, a⟩ := x
    by_cases hx : u = t ∧ a.isRestore = true
    · obtain ⟨hu, ha⟩ := hx
      have : a = Action.restoreResolvconfToDefault := by
        cases a <;> simp_all [Action.isRestore]
      subst this
      subst hu
      simp [restoresBy, List.count_cons]
    · have hrest : happened Action.isRestore t xs = true := by
        simp only [happened, List.any_cons, Bool.or_eq_true, Bool.and_eq_true,
          decide_eq_true_eq] at h
        rcases h with h | h
        · exact absurd h hx
        · simpa [happened] using h
      have := ih hrest
      simp only [restoresBy, List.count_cons] at this ⊢
      omega

theorem step_cases (st : Proc) (tick : Tick) :
    step st tick = st ∨ ∃ t a b rest, st.exit = none ∧ st.remaining t = a :: rest ∧
      Emits t a b ∧ step st tick = perform st t b rest := by
  unfold step
  cases hexit : st.exit with
  | some e => exact Or.inl rfl
  | none =>
    cases tick with
    | signal s =>
      simp only []
      split
      · rename_i rest hrem
        exact Or.inr ⟨Thread.main, Action.waitSignal, Action.receiveSignal s, rest, by trivial, hrem,
          Or.inr ⟨rfl, rfl, s, rfl⟩, rfl⟩
      · exact Or.inl rfl
    | run t =>
      simp only []
      by_cases hs : st.started t = true
      · rw [if_pos hs]
        split
        · exact Or.inl rfl
        · exact Or.inl rfl
        · rename_i a rest hnotwait hrem
          exact Or.inr ⟨t, a, a, rest, by trivial, hrem, Or.inl ⟨rfl, hnotwait⟩, rfl⟩
      · rw [if_neg hs]
        exact Or.inl rfl

theorem runTicks_invariant (P : Proc → Prop)
    (hstep : ∀ st t a b rest, P st → st.exit = none → st.remaining t = a :: rest →
      Emits t a b → P (perform st t b rest))
    (ticks : List Tick) : ∀ st, P st → P (runTicks st ticks) := by
  induction ticks with
  | nil =>
    intro st h
    exact h
  | cons tick rest ih =>
    intro st h
    have hnext : P (step st tick) := by
      rcases step_cases st tick with heq | ⟨t, a, b, r, hexit, hrem, hem, heq⟩
      · rw [heq]
        exact h
      · rw [heq]
        exact hstep st t a b r h hexit hrem hem
    exact ih (step st tick) hnext

theorem guard_perform (trigger target : Action → Bool) (st : Proc) (t : Thread)
    (a b : Action) (rest : List Action)
    (htrig : trigger b = trigger a)
    (hinv : ∀ u, happened trigger u st.trace = true
      ∨ guardedBy trigger target (st.remaining u) = true)
    (hrem : st.remaining t = a :: rest) :
    ∀ u, happened trigger u (perform st t b rest).trace = true
      ∨ guardedBy trigger target ((perform st t b rest).remaining u) = true := by
  intro u
  simp only [perform, happened_append_single, setAt]
  by_cases hu : u = t
  · subst hu
    rcases hinv u with h | h
    · exact Or.inl (by simp [h])
    · rw [hrem] at h
      simp only [guardedBy, Bool.or_eq_true, Bool.and_eq_true] at h
      rcases h with h | ⟨_, h⟩
      · exact Or.inl (by simp [htrig, h])
      · exact Or.inr (by simp [h])
  · rcases hinv u with h | h
    · exact Or.inl (by simp [h])
    · exact Or.inr (by simp [hu, h])

theorem guard_head (trigger target : Action → Bool) (st : Proc) (t : Thread)
    (a : Action) (rest : List Action)
    (hinv : ∀ u, happened trigger u st.trace = true
      ∨ guardedBy trigger target (st.remaining u) = true)
    (hrem : st.remaining t = a :: rest)
    (htarget : target a = true) (hnot : trigger a = false) :
    happened trigger t st.trace = true := by
  rcases hinv t with h | h
  · exact h
  · rw [hrem] at h
    simp [guardedBy, htarget, hnot] at h

theorem sound_perform (st : Proc) (t : Thread) (a b : Action) (rest : List Action)
    (hs : Sound st) (hexit : st.exit = none) (hrem : st.remaining t = a :: rest)
    (hem : Emits t a b) : Sound (perform st t b rest) := by
  obtain ⟨h1, h2, h3, h4, _⟩ := hs
  refine ⟨?_, ?_, ?_, ?_, ?_⟩
  · intro u
    simp only [perform, restoresBy_append_single, setAt]
    by_cases hu : u = t
    · subst hu
      have := h1 u
      rw [hrem, restoreCount_cons] at this
      simp only [if_true, true_and, emits_isRestore u a b hem]
      omega
    · have := h1 u
      have hut : ¬ t = u := fun e => hu e.symm
      simp only [hu, hut, if_false, false_and]
      omega
  · exact guard_perform Action.isRestore Action.isOsExit st t a b rest
      (emits_isRestore t a b hem) h2 hrem
  · intro status
    exact guard_perform (exitTrigger status) (isExitWith status) st t a b rest
      (emits_exitTrigger status t a b hem) (h3 status) hrem
  · intro hnone x hx
    simp only [perform, List.mem_append, List.mem_singleton] at hx
    rcases hx with hx | hx
    · exact h4 hexit x hx
    · rw [hx]
      simp only [perform] at hnone
      cases b <;> simp_all [exitOf, Action.isOsExit]
  · intro u status hsome
    simp only [perform] at hsome
    have hb : b = Action.osExit status ∧ u = t := by
      cases b <;> simp_all [exitOf]
    obtain ⟨hb, hu⟩ := hb
    subst hu
    have ha : a = Action.osExit status := emits_osExit u a b status hem hb
    subst hb
    have hR : happened Action.isRestore u st.trace = true :=
      guard_head Action.isRestore Action.isOsExit st u a rest h2 hrem
        (by rw [ha]; rfl) (by rw [ha]; rfl)
    have hS : happened (exitTrigger status) u st.trace = true :=
      guard_head (exitTrigger status) (isExitWith status) st u a rest (h3 status) hrem
        (by rw [ha]; simp [isExitWith]) (by rw [ha]; rfl)
    have hge := restoresBy_pos_of_happened u st.trace hR
    have hle := h1 u
    exact ⟨st.trace, rfl, h4 hexit, by omega, hS⟩

theorem sound_runTicks (st : Proc) (ticks : List Tick) (hs : Sound st) :
    Sound (runTicks st ticks) :=
  runTicks_invariant Sound
    (fun st t a b rest h hexit hrem hem => sound_perform st t a b rest h hexit hrem hem)
    ticks st hs

theorem origin_runTicks (Q : Thread → Action → Prop)
    (hrecv : ∀ s, Q Thread.main (Action.receiveSignal s)) (st : Proc) (ticks : List Tick)
    (htrace : ∀ x ∈ st.trace, Q x.1 x.2)
    (hrem : ∀ t, ∀ a ∈ st.remaining t, a ≠ Action.waitSignal → Q t a) :
    ∀ x ∈ (runTicks st ticks).trace, Q x.1 x.2 := by
  have key := runTicks_invariant
    (fun s => (∀ x ∈ s.trace, Q x.1 x.2)
      ∧ (∀ t, ∀ a ∈ s.remaining t, a ≠ Action.waitSignal → Q t a))
    (by
      intro s t a b rest hP _ hr hem
      obtain ⟨hPt, hPr⟩ := hP
      refine ⟨?_, ?_⟩
      · intro x hx
        simp only [perform, List.mem_append, List.mem_singleton] at hx
        rcases hx with hx | hx
        · exact hPt x hx
        · rw [hx]
          rcases hem with ⟨hb, hnw⟩ | ⟨ht, _, sg, hb⟩
          · rw [hb]
            exact hPr t a (by rw [hr]; exact List.mem_cons_self a rest) hnw
          · rw [hb, ht]
            exact hrecv sg
      · intro u c hc hnw
        simp only [perform, setAt] at hc
        by_cases hu : u = t
        · rw [if_pos hu] at hc
          rw [hu]
          exact hPr t c (by rw [hr]; exact List.mem_cons_of_mem a hc) hnw
        · rw [if_neg hu] at hc
          exact hPr u c hc hnw)
    ticks st ⟨htrace, hrem⟩
  exact key.1

theorem wellFormedBody_cons (a : Action) (as : List Action)
    (h : wellFormedBody (a :: as) = true) :
    ((∃ code, a = Action.callExit code) ∧ as = [])
      ∨ (a.quiet = true ∧ wellFormedBody as = true) := by
  cases a <;> cases as <;> simp_all [wellFormedBody, Action.quiet]

theorem withExit_cons_quiet (a : Action) (as : List Action) (h : a.quiet = true) :
    withExit (a :: as) = a :: withExit as := by
  cases a <;> simp_all [withExit, Action.quiet]

theorem restoreCount_body (b : List Action) (h : wellFormedBody b = true) :
    restoreCount b = 0 ∧ restoreCount (withExit b) ≤ 1 := by
  induction b with
  | nil => exact ⟨rfl, by simp [withExit, restoreCount]⟩
  | cons a as ih =>
    rcases wellFormedBody_cons a as h with ⟨⟨code, ha⟩, hnil⟩ | ⟨hq, hw⟩
    · subst ha
      subst hnil
      exact ⟨by simp [restoreCount], by simp [withExit, exitcodes.Exit, restoreCount]⟩
    · obtain ⟨ih1, ih2⟩ := ih hw
      have hnr : a.isRestore = false := by
        cases a <;> simp_all [Action.quiet, Action.isRestore]
      rw [withExit_cons_quiet a as hq, restoreCount_cons, restoreCount_cons, hnr]
      exact ⟨by simpa using ih1, by simpa using ih2⟩

theorem guarded_restore_body (b : List Action) (h : wellFormedBody b = true) :
    guardedBy Action.isRestore Action.isOsExit (withExit b) = true := by
  induction b with
  | nil => rfl
  | cons a as ih =>
    rcases wellFormedBody_cons a as h with ⟨⟨code, ha⟩, hnil⟩ | ⟨hq, hw⟩
    · subst ha
      subst hnil
      rfl
    · rw [withExit_cons_quiet a as hq]
      have : a.isOsExit = false := by
        cases a <;> simp_all [Action.quiet, Action.isOsExit]
      simp [guardedBy, this, ih hw]

theorem guarded_exit_body (status : Nat) (b : List Action) (h : wellFormedBody b = true) :
    guardedBy (exitTrigger status) (isExitWith status) (withExit b) = true := by
  induction b with
  | nil => rfl
  | cons a as ih =>
    rcases wellFormedBody_cons a as h with ⟨⟨code, ha⟩, hnil⟩ | ⟨hq, hw⟩
    · subst ha
      subst hnil
      by_cases hc : code = status
      · simp [withExit, guardedBy, exitTrigger, hc]
      · simp [withExit, exitcodes.Exit, guardedBy, exitTrigger, isExitWith, hc]
    · rw [withExit_cons_quiet a as hq]
      have : isExitWith status a = false := by
        cases a <;> simp_all [Action.quiet, isExitWith]
      simp [guardedBy, this, ih hw]

theorem origin_body (g : Goroutine) (b : List Action) (h : wellFormedBody b = true) :
    ∀ a ∈ withExit b, Origin (Thread.go g) a := by
  induction b with
  | nil =>
    intro a ha
    simp [withExit] at ha
  | cons c cs ih =>
    intro a ha
    rcases wellFormedBody_cons c cs h with ⟨⟨code, hc⟩, hnil⟩ | ⟨hq, hw⟩
    · subst hc
      subst hnil
      simp only [withExit, exitcodes.Exit, List.mem_cons, List.append_nil] at ha
      rcases ha with ha | ha | ha | ha
      · subst ha
        exact ⟨by simp, by simp⟩
      · subst ha
        exact ⟨by simp, by simp⟩
      · subst ha
        exact ⟨by simp, by simp⟩
      · simp at ha
    · rw [withExit_cons_quiet c cs hq, List.mem_cons] at ha
      rcases ha with ha | ha
      · subst ha
        refine ⟨?_, ?_⟩
        · intro e
          rw [e] at hq
          simp [Action.quiet] at hq
        · intro s e
          rw [e] at hq
          simp [Action.quiet] at hq
      · exact ih hw a ha

theorem listen_mem_withExit (b : List Action) (server : Server)
    (h : Action.listenAndServe server ∈ withExit b) : server ∈ servers b := by
  induction b with
  | nil => simp [withExit] at h
  | cons c cs ih =>
    cases c <;> simp_all [withExit, exitcodes.Exit, servers]
    tauto

theorem mem_servers (b : List Action) (server : Server) (h : server ∈ servers b) :
    Action.listenAndServe server ∈ b := by
  induction b with
  | nil => simp [servers] at h
  | cons c cs ih =>
    cases c <;> simp_all [servers]
    tauto

theorem restoreCount_eq_sum (calls : List (Thread × Action)) :
    restoreCount (calls.map Prod.snd) = (allThreads.map (fun t => restoresBy t calls)).sum := by
  induction calls with
  | nil => rfl
  | cons x xs ih =>
    obtain ⟨u, a⟩ := x
    have hcons : ∀ t, restoresBy t ((u, a) :: xs)
        = restoresBy t xs + (if u = t ∧ a.isRestore = true then 1 else 0) := by
      intro t
      by_cases hu : u = t
      · cases a <;> simp [restoresBy, List.count_cons, Action.isRestore, hu]
      · cases a <;> simp [restoresBy, List.count_cons, Action.isRestore, hu]
    simp only [List.map_cons, restoreCount_cons, ih, allThreads, hcons, List.map_nil,
      List.sum_cons, List.sum_nil]
    cases ha : a.isRestore
    · simp
    · cases u with
      | main =>
        simp
        omega
      | go g =>
        cases g <;> simp <;> omega

theorem restoresBy_quiet_main (t : Thread) (done : List Action)
    (h : done.all Action.quiet = true) :
    restoresBy t (done.map (fun a => (Thread.main, a))) = 0 := by
  induction done with
  | nil => rfl
  | cons a as ih =>
    simp only [List.all_cons, Bool.and_eq_true] at h
    have := ih h.2
    simp only [restoresBy] at this
    cases a <;> simp_all [restoresBy, List.count_cons, Action.quiet]

theorem sound_startProcess (body : Goroutine → List Action) (profiling : Bool)
    (done : List Action) (hbody : ∀ g, wellFormedBody (body g) = true)
    (hdone : done.all Action.quiet = true) :
    Sound (startProcess body profiling done) := by
  refine ⟨?_, ?_, ?_, ?_, ?_⟩
  · intro t
    simp only [startProcess, restoresBy_quiet_main t done hdone]
    cases t with
    | main => cases profiling <;> simp [mainProgram, launchAll, mainShutdown, restoreCount]
    | go g =>
      have := (restoreCount_body (body g) (hbody g)).2
      simp only []
      omega
  · intro t
    right
    cases t with
    | main => cases profiling <;> rfl
    | go g => exact guarded_restore_body (body g) (hbody g)
  · intro status t
    right
    cases t with
    | main =>
      by_cases hs : status = 0
      · cases profiling <;>
          simp [startProcess, mainProgram, launchAll, mainShutdown, guardedBy, exitTrigger,
            isExitWith, hs]
      · have hs2 : ¬ 0 = status := fun e => hs e.symm
        cases profiling <;>
          simp [startProcess, mainProgram, launchAll, mainShutdown, guardedBy, exitTrigger,
            isExitWith, hs, hs2]
    | go g => exact guarded_exit_body status (body g) (hbody g)
  · intro _ x hx
    simp only [startProcess, List.mem_map] at hx
    obtain ⟨a, ha, hxa⟩ := hx
    have hq : a.quiet = true := (List.all_eq_true.mp hdone) a ha
    rw [← hxa]
    cases a <;> simp_all [Action.quiet, Action.isOsExit]
  · intro t status h
    simp [startProcess] at h

theorem exit_of_run_ending (st : Proc) (t : Thread) (status : Nat)
    (h : st.run.ending = Ending.exited t status) : st.exit = some (t, status) := by
  unfold Proc.run at h
  cases hexit : st.exit with
  | none =>
    rw [hexit] at h
    simp at h
  | some e =>
    obtain ⟨u, c⟩ := e
    rw [hexit] at h
    simp only [Ending.exited.injEq] at h
    rw [h.1, h.2]

theorem origin_mainProgram (profiling : Bool) :
    ∀ a ∈ mainProgram profiling, a ≠ Action.waitSignal → Origin Thread.main a := by
  intro a ha hnw
  refine ⟨hnw, ?_⟩
  intro code hc
  rw [hc] at ha
  cases profiling <;> simp [mainProgram, launchAll, mainShutdown] at ha

theorem origin_quiet_main (done : List Action) (hdone : done.all Action.quiet = true) :
    ∀ x ∈ done.map (fun a => (Thread.main, a)), Origin x.1 x.2 := by
  intro x hx
  obtain ⟨a, ha, hxa⟩ := List.mem_map.mp hx
  have hq : a.quiet = true := (List.all_eq_true.mp hdone) a ha
  rw [← hxa]
  refine ⟨?_, ?_⟩
  · intro e
    have e2 : a = Action.waitSignal := e
    rw [e2] at hq
    simp [Action.quiet] at hq
  · intro code e
    have e2 : a = Action.callExit code := e
    rw [e2] at hq
    simp [Action.quiet] at hq

theorem discipline_of_sound (st : Proc) (hs : Sound st)
    (horigin : ∀ x ∈ st.trace, Origin x.1 x.2) : RestoreDiscipline st.run := by
  obtain ⟨h1, _, _, _, h5⟩ := hs
  refine ⟨?_, ?_, ?_⟩
  · intro t status hend
    obtain ⟨pre, hpre, hno, hcount, hhap⟩ := h5 t status (exit_of_run_ending st t status hend)
    have htr : st.run.calls = st.trace := rfl
    refine ⟨pre, by rw [htr, hpre], hno, hcount, ?_, ?_⟩
    · intro ht
      simp only [happened, List.any_eq_true, Bool.and_eq_true, decide_eq_true_eq] at hhap
      obtain ⟨x, hx, hxt, hxe⟩ := hhap
      obtain ⟨u, a⟩ := x
      simp only [] at hxt hxe
      have ho := horigin (u, a) (by rw [hpre]; exact List.mem_append_left _ hx)
      rw [hxt, ht] at ho
      obtain ⟨hnw, hncall⟩ := ho
      simp only [] at hnw hncall
      cases a with
      | receiveSignal s =>
        simp only [exitTrigger, beq_iff_eq] at hxe
        exact ⟨hxe, s, by rw [← ht, ← hxt]; exact hx⟩
      | callExit code => exact absurd rfl (hncall code)
      | waitSignal => exact absurd rfl hnw
      | _ => simp [exitTrigger] at hxe
    · intro g ht
      simp only [happened, List.any_eq_true, Bool.and_eq_true, decide_eq_true_eq] at hhap
      obtain ⟨x, hx, hxt, hxe⟩ := hhap
      obtain ⟨u, a⟩ := x
      simp only [] at hxt hxe
      have ho := horigin (u, a) (by rw [hpre]; exact List.mem_append_left _ hx)
      rw [hxt, ht] at ho
      obtain ⟨hnw, hnrecv⟩ := ho
      simp only [] at hnw hnrecv
      cases a with
      | receiveSignal s => exact absurd rfl (hnrecv s)
      | callExit code =>
        simp only [exitTrigger, beq_iff_eq] at hxe
        rw [← hxe, ← ht, ← hxt]
        exact hx
      | waitSignal => exact absurd rfl hnw
      | _ => simp [exitTrigger] at hxe
  · intro t
    have := h1 t
    have htr : st.run.calls = st.trace := rfl
    rw [htr]
    omega
  · exact restoreCount_eq_sum st.trace

theorem discipline_runTicks (body : Goroutine → List Action) (profiling : Bool)
    (done : List Action) (ticks : List Tick)
    (hbody : ∀ g, wellFormedBody (body g) = true) (hdone : done.all Action.quiet = true) :
    RestoreDiscipline (runTicks (startProcess body profiling done) ticks).run := by
  apply discipline_of_sound
  · exact sound_runTicks _ ticks (sound_startProcess body profiling done hbody hdone)
  · apply origin_runTicks Origin
    · intro s
      exact ⟨by simp, by simp⟩
    · exact origin_quiet_main done hdone
    · intro t a ha hnw
      cases t with
      | main => exact origin_mainProgram profiling a ha hnw
      | go g => exact origin_body g (body g) (hbody g) a ha

theorem discipline_main (conf : Conf) (codes : ExitCodes) (env : Env) (schedule : List Tick) :
    RestoreDiscipline (main conf codes env schedule) := by
  unfold main
  cases htsig : tsigNameSecret conf.Tsig with
  | error v =>
    refine ⟨?_, ?_, ?_⟩
    · intro t status h
      simp at h
    · intro t
      simp [restoresBy, List.count_cons]
    · simp [restoreCount, restoresBy, ProcessRun.actions, allThreads, List.count_cons]
  | ok p =>
    obtain ⟨name, secret⟩ := p
    simp only []
    by_cases hprof : conf.CpuProfile ≠ ""
    · rw [if_pos hprof]
      cases hcreate : env.createProfile with
      | some err =>
        refine ⟨?_, ?_, ?_⟩
        · intro t status h
          simp at h
        · intro t
          simp [restoresBy, List.count_cons]
        · simp [restoreCount, restoresBy, ProcessRun.actions, allThreads, List.count_cons]
      | none =>
        exact discipline_runTicks _ true _ schedule
          (wellFormedBody_goroutineBody conf codes env name secret) (by simp [Action.quiet])
    · rw [if_neg hprof]
      exact discipline_runTicks _ false _ schedule
        (wellFormedBody_goroutineBody conf codes env name secret) (by simp [Action.quiet])

theorem servers_main (conf : Conf) (codes : ExitCodes) (env : Env) (schedule : List Tick)
    (server : Server) (h : server ∈ servers (main conf codes env schedule).actions) :
    ∃ name secret, tsigNameSecret conf.Tsig = Except.ok (name, secret) ∧
      (server = ⟨":" ++ toString conf.DnsServerPort, "tcp",
          if name = "" then none else some [(name, secret)]⟩
        ∨ server = ⟨":" ++ toString conf.DnsServerPort, "udp",
          if name = "" then none else some [(name, secret)]⟩) := by
  have hmem := mem_servers _ server h
  unfold main at hmem
  cases htsig : tsigNameSecret conf.Tsig with
  | error v =>
    rw [htsig] at hmem
    simp [ProcessRun.actions] at hmem
  | ok p =>
    obtain ⟨name, secret⟩ := p
    rw [htsig] at hmem
    simp only [] at hmem
    refine ⟨name, secret, rfl, ?_⟩
    have key : ∀ (profiling : Bool) (done : List Action),
        (∀ x ∈ done.map (fun a => (Thread.main, a)), ∀ sv, x.2 = Action.listenAndServe sv →
          sv ∈ servers (goroutineBody conf codes env name secret Goroutine.serveTcp)
            ++ servers (goroutineBody conf codes env name secret Goroutine.serveUdp)) →
        Action.listenAndServe server ∈
          (runTicks (startProcess (goroutineBody conf codes env name secret) profiling done)
            schedule).run.actions →
        server ∈ servers (goroutineBody conf codes env name secret Goroutine.serveTcp)
          ++ servers (goroutineBody conf codes env name secret Goroutine.serveUdp) := by
      intro profiling done hdone hin
      have hall := origin_runTicks
        (fun _ a => ∀ sv, a = Action.listenAndServe sv →
          sv ∈ servers (goroutineBody conf codes env name secret Goroutine.serveTcp)
            ++ servers (goroutineBody conf codes env name secret Goroutine.serveUdp))
        (by intro s sv e; cases e)
        (startProcess (goroutineBody conf codes env name secret) profiling done) schedule
        hdone
        (by
          intro t a ha _ sv e
          rw [e] at ha
          cases t with
          | main =>
            exfalso
            cases profiling <;> simp [startProcess, mainProgram, launchAll, mainShutdown] at ha
          | go g =>
            have hsv := listen_mem_withExit _ sv ha
            rcases servers_goroutineBody conf codes env name secret g sv hsv with hs | hs
            · rw [hs]
              simp [goroutineBody, servers_serve]
            · rw [hs]
              simp [goroutineBody, servers_serve])
      simp only [ProcessRun.actions, Proc.run, List.mem_map] at hin
      obtain ⟨x, hx, hxa⟩ := hin
      exact hall x hx server hxa
    have hfinal : server ∈ servers (goroutineBody conf codes env name secret Goroutine.serveTcp)
        ++ servers (goroutineBody conf codes env name secret Goroutine.serveUdp) := by
      by_cases hprof : conf.CpuProfile ≠ ""
      · rw [if_pos hprof] at hmem
        cases hcreate : env.createProfile with
        | some err =>
          rw [hcreate] at hmem
          simp [ProcessRun.actions] at hmem
        | none =>
          rw [hcreate] at hmem
          exact key true _ (by intro x hx sv e; simp at hx; rcases hx with hx | hx | hx | hx | hx <;> (rw [hx] at e; cases e)) hmem
      · rw [if_neg hprof] at hmem
        exact key false _ (by intro x hx sv e; simp at hx; rcases hx with hx | hx | hx <;> (rw [hx] at e; cases e)) hmem
    simpa [goroutineBody, servers_serve] using hfinal

theorem le_sum_of_mem_threads (f : Thread → Nat) (t : Thread) (l : List Thread)
    (ht : t ∈ l) : f t ≤ (l.map f).sum := by
  induction l with
  | nil => simp at ht
  | cons a as ih =>
    simp only [List.map_cons, List.sum_cons]
    rcases List.mem_cons.mp ht with h | h
    · rw [h]
      omega
    · have := ih h
      omega

theorem sum_single_thread (f : Thread → Nat) (t : Thread) (l : List Thread)
    (hnd : l.Nodup) (ht : t ∈ l) (h0 : ∀ u, u ≠ t → f u = 0) : (l.map f).sum = f t := by
  induction l with
  | nil => simp at ht
  | cons a as ih =>
    simp only [List.map_cons, List.sum_cons]
    have hnd2 := List.nodup_cons.mp hnd
    by_cases ha : a = t
    · subst ha
      have hzero : (as.map f).sum = 0 := by
        apply List.sum_eq_zero
        intro x hx
        obtain ⟨u, hu, hfu⟩ := List.mem_map.mp hx
        rw [← hfu]
        exact h0 u (fun e => hnd2.1 (e ▸ hu))
      omega
    · have hin : t ∈ as := by
        rcases List.mem_cons.mp ht with h | h
        · exact absurd h.symm ha
        · exact h
      rw [h0 a ha, ih hnd2.2 hin]
      omega

theorem run_ending_not_early (st : Proc) :
    (∀ v, st.run.ending ≠ Ending.panicked v) ∧ st.run.ending ≠ Ending.fatal := by
  unfold Proc.run
  cases st.exit with
  | none => exact ⟨by simp, by simp⟩
  | some e => exact ⟨by simp, by simp⟩

theorem restoreCount_of_early_ending (conf : Conf) (codes : ExitCodes) (env : Env)
    (schedule : List Tick)
    (hend : (∃ v, (main conf codes env schedule).ending = Ending.panicked v)
      ∨ (main conf codes env schedule).ending = Ending.fatal) :
    restoreCount (main conf codes env schedule).actions = 0 := by
  unfold main at hend ⊢
  cases htsig : tsigNameSecret conf.Tsig with
  | error v => simp [restoreCount, ProcessRun.actions]
  | ok p =>
    obtain ⟨name, secret⟩ := p
    rw [htsig] at hend
    simp only [] at hend ⊢
    by_cases hprof : conf.CpuProfile ≠ ""
    · rw [if_pos hprof] at hend ⊢
      cases hcreate : env.createProfile with
      | some err => simp [restoreCount, ProcessRun.actions]
      | none =>
        rw [hcreate] at hend
        simp only [] at hend
        rcases hend with ⟨v, hv⟩ | hf
        · exact absurd hv ((run_ending_not_early _).1 v)
        · exact absurd hf (run_ending_not_early _).2
    · rw [if_neg hprof] at hend ⊢
      rcases hend with ⟨v, hv⟩ | hf
      · exact absurd hv ((run_ending_not_early _).1 v)
      · exact absurd hf (run_ending_not_early _).2

/-! ## Listener bootstrap and service lifecycle -/

/-- C6 (as amended): when the listeners of two transports fail to bind, serve
calls exitcodes.Exit with the same status FAIL_START_DNS_SERVER for both; the
web-endpoint bind failure uses FAIL_START_WEB_SERVER and the host-config override
failure uses FAIL_SET_DNS_AS_DEFAULT, and when the three constants have pairwise
different values the listener status differs from these two. -/
theorem serve_exit_status (conf : Conf) (codes : ExitCodes) (env : Env)
    (net1 net2 name secret : String)
    (hbind1 : ∀ server, server.Net = net1 → ∃ err, env.ListenAndServe server = some err)
    (hbind2 : ∀ server, server.Net = net2 → ∃ err, env.ListenAndServe server = some err)
    (hdistinct : codes.Distinct) :
    exitCode? (serve conf codes env net1 name secret) = some codes.FAIL_START_DNS_SERVER ∧
    exitCode? (serve conf codes env net2 name secret)
      = exitCode? (serve conf codes env net1 name secret) ∧
    ((∃ err, env.httpListenAndServe (":" ++ toString conf.WebServerPort) = some err) →
      exitCode? (webServer conf codes env) = some codes.FAIL_START_WEB_SERVER) ∧
    (conf.SetupResolvConf = true → (∃ err, env.SetCurrentDNSServerToMachine = some err) →
      exitCode? (setupRequests conf codes env) = some codes.FAIL_SET_DNS_AS_DEFAULT) ∧
    codes.FAIL_START_DNS_SERVER ≠ codes.FAIL_START_WEB_SERVER ∧
    codes.FAIL_START_DNS_SERVER ≠ codes.FAIL_SET_DNS_AS_DEFAULT := by
  have h1 := exitCode?_serve conf codes env net1 name secret hbind1
  have h2 := exitCode?_serve conf codes env net2 name secret hbind2
  refine ⟨h1, by rw [h1, h2], ?_, ?_, hdistinct.1, hdistinct.2.1⟩
  · rintro ⟨err, herr⟩
    simp [webServer, herr, exitCode?]
  · rintro hsetup ⟨err, herr⟩
    simp [setupRequests, hsetup, herr, exitCode?]

/-- C6, example of the amended statement: with every DNS listener failing to
bind, the udp and the tcp listener both end with status 3, which differs from the
web status 1 and the override status 2. -/
theorem serve_exit_status_witness :
    exitCode? (serve exConf exCodes exEnvBindFails "udp" "examplekey." "examplesecret")
      = some exCodes.FAIL_START_DNS_SERVER ∧
    exitCode? (serve exConf exCodes exEnvBindFails "tcp" "examplekey." "examplesecret")
      = exitCode? (serve exConf exCodes exEnvBindFails "udp" "examplekey." "examplesecret") ∧
    exCodes.FAIL_START_DNS_SERVER ≠ exCodes.FAIL_START_WEB_SERVER ∧
    exCodes.FAIL_START_DNS_SERVER ≠ exCodes.FAIL_SET_DNS_AS_DEFAULT :=
  have h := serve_exit_status exConf exCodes exEnvBindFails "udp" "tcp" "examplekey."
    "examplesecret" (fun _ _ => ⟨"listen: address already in use", rfl⟩)
    (fun _ _ => ⟨"listen: address already in use", rfl⟩) (by decide)
  ⟨h.1, h.2.1, h.2.2.2.2.1, h.2.2.2.2.2⟩

/-- C6 as stated fails: the status of a datagram bind failure is the status of a
stream bind failure. -/
theorem bind_failure_status_shared_counterexample :
    exitCode? (serve exConfPlain exCodes exEnvBindFails "udp" "" "") = some 3 ∧
    exitCode? (serve exConfPlain exCodes exEnvBindFails "tcp" "" "") = some 3 := by
  decide

/-- C7 (as amended): in every interleaving of main and its goroutines, when a
thread has ended the process (main returning after a signal, or a goroutine
inside exitcodes.Exit after a listener, web-endpoint or override failure), that
thread has invoked RestoreResolvconfToDefault exactly once before the exit; so
the restore has been invoked at least once, and exactly once when no other thread
has invoked it. When main ends the process the status is 0 and main has received
a signal, whatever the override setting and result are; when a goroutine ends it,
the goroutine has called exitcodes.Exit with that status. No thread invokes the
restore more than once, and every invocation is counted with its thread, so
threads that reach their termination sequence together each invoke it. The
goroutine bodies of dns.go contain no restore call of their own. A run that ends
by the Tsig panic or by logger.Fatal contains no restore. -/
theorem main_restore_discipline (conf : Conf) (codes : ExitCodes) (env : Env)
    (schedule : List Tick) :
    (∀ t status, (main conf codes env schedule).ending = Ending.exited t status →
      (∃ pre, (main conf codes env schedule).calls = pre ++ [(t, Action.osExit status)] ∧
        (∀ x ∈ pre, x.2.isOsExit = false) ∧
        restoresBy t pre = 1 ∧
        (t = Thread.main → status = 0 ∧ ∃ s, (Thread.main, Action.receiveSignal s) ∈ pre) ∧
        (∀ g, t = Thread.go g → (Thread.go g, Action.callExit status) ∈ pre)) ∧
      1 ≤ restoreCount (main conf codes env schedule).actions ∧
      ((∀ u, u ≠ t → restoresBy u (main conf codes env schedule).calls = 0) →
        restoreCount (main conf codes env schedule).actions = 1)) ∧
    (∀ t, restoresBy t (main conf codes env schedule).calls ≤ 1) ∧
    restoreCount (main conf codes env schedule).actions
      = (allThreads.map (fun t => restoresBy t (main conf codes env schedule).calls)).sum ∧
    (∀ name secret g, restoreCount (goroutineBody conf codes env name secret g) = 0) ∧
    (((∃ v, (main conf codes env schedule).ending = Ending.panicked v)
        ∨ (main conf codes env schedule).ending = Ending.fatal) →
      restoreCount (main conf codes env schedule).actions = 0) := by
  obtain ⟨hexit, hle, hsum⟩ := discipline_main conf codes env schedule
  refine ⟨?_, hle, hsum, ?_, ?_⟩
  · intro t status hend
    obtain ⟨pre, hpre, hno, hcount, hmain, hgo⟩ := hexit t status hend
    have ht : restoresBy t (main conf codes env schedule).calls = 1 := by
      rw [hpre, restoresBy_append_single, hcount]
      simp [Action.isRestore]
    have hmem : t ∈ allThreads := by
      cases t with
      | main => simp [allThreads]
      | go g => cases g <;> simp [allThreads]
    refine ⟨⟨pre, hpre, hno, hcount, hmain, hgo⟩, ?_, ?_⟩
    · rw [hsum, ← ht]
      exact le_sum_of_mem_threads
        (fun t => restoresBy t (main conf codes env schedule).calls) t allThreads hmem
    · intro hothers
      rw [hsum, sum_single_thread
        (fun t => restoresBy t (main conf codes env schedule).calls) t allThreads
        (by decide) hmem hothers, ht]
  · intro name secret g
    exact (restoreCount_body _ (wellFormedBody_goroutineBody conf codes env name secret g)).1
  · intro hend
    exact restoreCount_of_early_ending conf codes env schedule hend

/-- C7, examples of the amended statement: after a signal main ends the process
having restored once; the udp listener failing alone ends the process from inside
exitcodes.Exit having restored once. -/
theorem main_restore_discipline_witness :
    (∃ pre, (main exConf exCodes exEnvServing exSignalled).calls
        = pre ++ [(Thread.main, Action.osExit 0)] ∧
      restoresBy Thread.main pre = 1) ∧
    restoreCount (main exConf exCodes exEnvServing exSignalled).actions = 1 ∧
    (∃ pre, (main exConf exCodes exEnvBindFails exUdpFails).calls
        = pre ++ [(Thread.go Goroutine.serveUdp, Action.osExit 3)] ∧
      restoresBy (Thread.go Goroutine.serveUdp) pre = 1 ∧
      (Thread.go Goroutine.serveUdp, Action.callExit 3) ∈ pre) :=
  ⟨Exists.elim
     ((main_restore_discipline exConf exCodes exEnvServing exSignalled).1 Thread.main 0
       (by decide)).1
     (fun pre h => ⟨pre, h.1, h.2.2.1⟩),
   ((main_restore_discipline exConf exCodes exEnvServing exSignalled).1 Thread.main 0
       (by decide)).2.2
     (by
       intro u hu
       cases u with
       | main => exact absurd rfl hu
       | go g => cases g <;> decide),
   Exists.elim
     ((main_restore_discipline exConf exCodes exEnvBindFails exUdpFails).1
       (Thread.go Goroutine.serveUdp) 3 (by decide)).1
     (fun pre h => ⟨pre, h.1, h.2.2.1, h.2.2.2.2 Goroutine.serveUdp rfl⟩)⟩

/-- C7 as stated fails: when the tcp and the udp listener both fail to bind, both
threads call exitcodes.Exit and the restore is invoked twice before the process
ends; and when the Tsig has no colon main ends in a panic without any restore. -/
theorem restore_not_exactly_once_counterexample :
    (main exConf exCodes exEnvBindFails exBothListenersFail).ending
      = Ending.exited (Thread.go Goroutine.serveTcp) 3 ∧
    restoreCount (main exConf exCodes exEnvBindFails exBothListenersFail).actions = 2 ∧
    (main exConfNoColon exCodes exEnvServing []).ending
      = Ending.panicked "runtime error: index out of range" ∧
    restoreCount (main exConfNoColon exCodes exEnvServing []).actions = 0 := by
  decide

/-- C8: with an empty Tsig the name and secret are empty and both listeners are
created with a nil TsigSecret map; with a Tsig of the form name:secret both
listeners are created with the one-entry map from N to S, where N is the text
before the first colon followed by a dot unless it already ends in one, and S is
all the text after the first colon. Every server on which a run of main calls
ListenAndServe is the tcp or the udp listener built from that name and secret. -/
theorem listeners_tsig_secret (conf : Conf) (codes : ExitCodes) (env : Env) :
    (conf.Tsig = "" →
      tsigNameSecret conf.Tsig = Except.ok ("", "") ∧
      servers (goroutineBody conf codes env "" "" Goroutine.serveTcp)
        = [⟨":" ++ toString conf.DnsServerPort, "tcp", none⟩] ∧
      servers (goroutineBody conf codes env "" "" Goroutine.serveUdp)
        = [⟨":" ++ toString conf.DnsServerPort, "udp", none⟩]) ∧
    (∀ before after N, ':' ∉ before.data → conf.Tsig = before ++ ":" ++ after →
      N = (if before.data.getLast? = some '.' then before else before ++ ".") →
      tsigNameSecret conf.Tsig = Except.ok (N, after) ∧
      servers (goroutineBody conf codes env N after Goroutine.serveTcp)
        = [⟨":" ++ toString conf.DnsServerPort, "tcp", some [(N, after)]⟩] ∧
      servers (goroutineBody conf codes env N after Goroutine.serveUdp)
        = [⟨":" ++ toString conf.DnsServerPort, "udp", some [(N, after)]⟩]) ∧
    (∀ schedule server, server ∈ servers (main conf codes env schedule).actions →
      ∃ name secret, tsigNameSecret conf.Tsig = Except.ok (name, secret) ∧
        (server ∈ servers (goroutineBody conf codes env name secret Goroutine.serveTcp)
          ∨ server ∈ servers (goroutineBody conf codes env name secret Goroutine.serveUdp))) := by
  refine ⟨?_, ?_, ?_⟩
  · intro htsig
    refine ⟨by simp [tsigNameSecret, htsig], ?_, ?_⟩
    · simp [goroutineBody, servers_serve]
    · simp [goroutineBody, servers_serve]
  · intro before after N hb htsig hN
    have hfq : N = Fqdn before := by rw [hN, Fqdn_eq]
    have hne : N ≠ "" := hfq ▸ Fqdn_ne_empty before
    refine ⟨by rw [htsig, hfq]; exact tsigNameSecret_colon before after hb, ?_, ?_⟩
    · simp [goroutineBody, servers_serve, hne]
    · simp [goroutineBody, servers_serve, hne]
  · intro schedule server h
    obtain ⟨name, secret, htsig, hsrv⟩ := servers_main conf codes env schedule server h
    refine ⟨name, secret, htsig, ?_⟩
    rcases hsrv with hsrv | hsrv
    · exact Or.inl (by simp [goroutineBody, servers_serve, hsrv])
    · exact Or.inr (by simp [goroutineBody, servers_serve, hsrv])

/-- C8, example: for the Tsig examplekey:examplesecret both listeners get the map
from examplekey. (with the trailing dot) to examplesecret; a secret may itself
contain colons. -/
theorem listeners_tsig_secret_witness :
    tsigNameSecret exConf.Tsig = Except.ok ("examplekey.", "examplesecret") ∧
    servers (goroutineBody exConf exCodes exEnvServing "examplekey." "examplesecret"
      Goroutine.serveTcp)
      = [⟨":" ++ toString exConf.DnsServerPort, "tcp",
          some [("examplekey.", "examplesecret")]⟩] ∧
    servers (goroutineBody exConf exCodes exEnvServing "examplekey." "examplesecret"
      Goroutine.serveUdp)
      = [⟨":" ++ toString exConf.DnsServerPort, "udp",
          some [("examplekey.", "examplesecret")]⟩] ∧
    tsigNameSecret exConfPlain.Tsig = Except.ok ("", "") :=
  have h := (listeners_tsig_secret exConf exCodes exEnvServing).2.1 "examplekey"
    "examplesecret" "examplekey." (by decide) rfl rfl
  ⟨h.1, h.2.1, h.2.2, ((listeners_tsig_secret exConfPlain exCodes exEnvServing).1 rfl).1⟩

/-- C10: for a non-empty Tsig the extraction of name and secret completes without
a fault exactly when the Tsig contains a colon; without a colon reading the
second element of the split result is out of range, and main ends in that panic
after the service installation, before any go statement or listener. -/
theorem tsig_extraction_faults_iff_no_colon (conf : Conf) (codes : ExitCodes) (env : Env)
    (schedule : List Tick) (hne : conf.Tsig ≠ "") :
    ((∃ p, tsigNameSecret conf.Tsig = Except.ok p) ↔ ':' ∈ conf.Tsig.data) ∧
    (':' ∉ conf.Tsig.data →
      tsigNameSecret conf.Tsig = Except.error "runtime error: index out of range" ∧
      main conf codes env schedule
        = ⟨[(Thread.main, Action.installService)],
            Ending.panicked "runtime error: index out of range"⟩ ∧
      servers (main conf codes env schedule).actions = [] ∧
      ∀ g, Action.go g ∉ (main conf codes env schedule).actions) := by
  have hno : ':' ∉ conf.Tsig.data →
      tsigNameSecret conf.Tsig = Except.error "runtime error: index out of range" :=
    tsigNameSecret_no_colon conf.Tsig hne
  refine ⟨⟨?_, ?_⟩, ?_⟩
  · rintro ⟨p, hp⟩
    by_contra hc
    rw [hno hc] at hp
    exact absurd hp (by simp)
  · intro hc
    cases hidx : indexByte ':' conf.Tsig.data with
    | none => exact absurd hc ((indexByte_eq_none_iff ':' conf.Tsig.data).mp hidx)
    | some m =>
      refine ⟨(Fqdn (String.mk (conf.Tsig.data.take m)),
        String.mk (conf.Tsig.data.drop (m + 1))), ?_⟩
      simp [tsigNameSecret, hne, SplitN_two conf.Tsig hne, genSplit, hidx]
  · intro hc
    have hmain : main conf codes env schedule
        = ⟨[(Thread.main, Action.installService)],
            Ending.panicked "runtime error: index out of range"⟩ := by
      simp only [main, hno hc]
    refine ⟨hno hc, hmain, ?_, ?_⟩
    · rw [hmain]
      rfl
    · intro g
      rw [hmain]
      simp [ProcessRun.actions]

/-- C10, example: the Tsig examplekey has no colon and main ends in the
index-out-of-range panic. -/
theorem tsig_extraction_faults_iff_no_colon_witness :
    exConfNoColon.Tsig ≠ "" ∧ ':' ∉ exConfNoColon.Tsig.data ∧
    ¬ (∃ p, tsigNameSecret exConfNoColon.Tsig = Except.ok p) ∧
    main exConfNoColon exCodes exEnvServing [Tick.run (Thread.go Goroutine.serveTcp)]
      = ⟨[(Thread.main, Action.installService)],
          Ending.panicked "runtime error: index out of range"⟩ :=
  have h := tsig_extraction_faults_iff_no_colon exConfNoColon exCodes exEnvServing
    [Tick.run (Thread.go Goroutine.serveTcp)] (by decide)
  ⟨by decide, by decide, fun hp => absurd (h.1.mp hp) (by decide), (h.2 (by decide)).2.1⟩

end DnsProxy
